import Mathlib

/-!
Verification of the calendar availability and scheduling engine of the
group-meeting-scheduler repository, as a shallow embedding in Lean 4.

Conventions of the embedding:
* JavaScript `Date` values are modelled as `Int` instants in milliseconds
  since the Unix epoch, with the runtime timezone taken to be UTC (the
  engine's internal processing is specified to happen in UTC).
* JavaScript strings are modelled as `List Char` (`Str`), so that every
  string operation is structurally recursive and kernel-computable.
* JavaScript numbers are modelled as `Int` where the source only performs
  integer arithmetic, and as `ℚ` for the scoring computation (which divides).
* `Array.prototype.sort` (a stable sort since ES2019) is modelled by the
  stable insertion sort `sortBy`; for a total transitive comparator every
  stable sort computes the same list.
* Code that `throw`s is modelled with `Except`; a `try`/`catch` block is
  modelled by matching on the `Except` value.
-/

/-- JavaScript strings, modelled as lists of characters. -/
abbrev Str := List Char

/- ### Stable sorting, modelling `Array.prototype.sort` -/

/-- One step of stable insertion: place `x` before the first element `y` with
`le x y`. -/
def insertBy (le : α → α → Bool) (x : α) : List α → List α
  | [] => [x]
  | y :: ys => if le x y then x :: y :: ys else y :: insertBy le x ys

/-- Stable insertion sort, modelling `Array.prototype.sort(cmp)` for the
comparator `cmp a b ≤ 0 ↔ le a b`. -/
def sortBy (le : α → α → Bool) : List α → List α
  | [] => []
  | x :: xs => insertBy le x (sortBy le xs)

/- ### JavaScript date primitives (runtime timezone modelled as UTC) -/

/-- Source `date-fns` `addMinutes`. -/
def addMinutes (t m : Int) : Int := t + m * 60000

/-- Source `date-fns` `startOfDay` for a UTC runtime. -/
def startOfDay (t : Int) : Int := 86400000 * (t.fdiv 86400000)

/-- Source `date-fns` `endOfDay` (23:59:59.999 of the same day). -/
def endOfDay (t : Int) : Int := startOfDay t + 86399999

/-- Source `Date.prototype.getDay` (0 = Sunday) for a UTC runtime: day 0 of the
epoch (1970-01-01) was a Thursday (= 4). -/
def jsGetDay (t : Int) : Int := (t.fdiv 86400000 + 4) % 7

/-- Source `date-fns` `isWeekend`. -/
def isWeekend (t : Int) : Bool := jsGetDay t == 0 || jsGetDay t == 6

/-- Source `Date.prototype.getHours` for a UTC runtime. -/
def jsGetHours (t : Int) : Int := t.fdiv 3600000 % 24

/-- Source `Date.prototype.getMinutes` for a UTC runtime. -/
def jsGetMinutes (t : Int) : Int := t.fdiv 60000 % 60

/-- Source `Date.prototype.setHours(h, m, 0, 0)` for a UTC runtime: keep the calendar
day of `t`, set the wall clock to `h:m:00.000`. -/
def jsSetHours (t h m : Int) : Int := startOfDay t + h * 3600000 + m * 60000

/- ### Data model (`src/types/calendar`, `src/types/scheduling`) -/

/-- Event status, from the `"confirmed" | "tentative" | "cancelled"` union. -/
inductive EventStatus where
  | confirmed
  | tentative
  | cancelled
deriving DecidableEq, Repr

/-- Model of the external `rrule` npm library's `RRule` object.  The option
fields mirror the options `ICalParser.parseRecurrenceRule` passes to the
constructor (the source's `until` option is a Lean keyword and is named
`untilDate` here).  `occDates a b` abstracts the chronological list of occurrence
instants the library would enumerate for the window `[a, b]`; the library's
`between` delivers each accepted date to the caller's iterator together with
its index and stops as soon as the iterator returns `false` (this is the
documented contract that `RecurrenceExpander` relies on). -/
structure RRule where
  freq : Int
  interval : Option Int := none
  count : Option Int := none
  untilDate : Option Int := none
  byweekday : Option (List Int) := none
  bymonthday : Option (List Int) := none
  bymonth : Option (List Int) := none
  dtstart : Int := 0
  occDates : Int → Int → List Int := fun _ _ => []

/-- The iterator-driven truncation inside `RRule.between`: each candidate date
is passed to the iterator with its index; a `false` return stops. -/
def RRule.betweenAux (iterator : Int → Nat → Bool) : List Int → Nat → List Int
  | [], _ => []
  | d :: rest, i => if iterator d i then d :: RRule.betweenAux iterator rest (i + 1) else []

/-- Model of `rrule`'s `RRule.prototype.between(after, before, inc, iterator)`. -/
def RRule.between (r : RRule) (after before : Int) (_inc : Bool)
    (iterator : Int → Nat → Bool) : List Int :=
  RRule.betweenAux iterator (r.occDates after before) 0

/-- Source `CalendarEvent` (the source's `end` field is a Lean keyword and is named
`endTime` here). -/
structure CalendarEvent where
  id : Str
  summary : Str
  start : Int
  endTime : Int
  timezone : Str
  recurrence : Option RRule := none
  status : EventStatus := .confirmed

/-- Source `ParticipantCalendar`. -/
structure ParticipantCalendar where
  participantId : Str
  name : Str
  timezone : Str
  events : List CalendarEvent
  source : Str

/-- Source `DateRange` / the scheduler's `searchRange` argument. -/
structure DateRange where
  start : Int
  endTime : Int

/-- Source `BusyPeriod` from `calendar-processor.ts`. -/
structure BusyPeriod where
  participantId : Str
  start : Int
  endTime : Int
  eventIds : List Str

/-- Source `EventConflict` from `calendar-processor.ts`; `overlapDuration` is in
minutes and may be fractional in JavaScript, hence `ℚ`. -/
structure EventConflict where
  participantId : Str
  event1 : CalendarEvent
  event2 : CalendarEvent
  overlapStart : Int
  overlapEnd : Int
  overlapDuration : ℚ

/-- Source `TimeSlot` from `src/types/scheduling`.  `timezoneDisplay` maps a zone
name to the displayed slot; the source renders it as a formatted string, which
this embedding abstracts to the pair of raw instants being formatted. -/
structure TimeSlot where
  start : Int
  endTime : Int
  score : ℚ
  conflicts : List Str
  timezoneDisplay : List (Str × Int × Int)
deriving DecidableEq

/-- Source `MeetingPreferences` from `src/types/scheduling`. -/
structure MeetingPreferences where
  duration : Int
  timeRangeStart : Str
  timeRangeEnd : Str
  bufferTime : Int
  excludeWeekends : Bool
  excludedDates : List Int
  preferredTimezones : List Str

/-- Source `ConflictSummary` from `src/types/scheduling`; the two `Record`s are
modelled as association lists in insertion order. -/
structure ConflictSummary where
  totalConflicts : Nat
  participantConflicts : List (Str × Nat)
  conflictsByTimeSlot : List ((Int × Int) × List Str)
deriving DecidableEq

/-- Source `SchedulingResult`. -/
structure SchedulingResult where
  availableSlots : List TimeSlot
  conflictAnalysis : ConflictSummary
  recommendations : List TimeSlot
deriving DecidableEq

/-- Source `SchedulingError` (an `Error` subclass carrying a machine-readable
`code`). -/
structure SchedulingError where
  message : Str
  code : Str
deriving DecidableEq

/- ### Calendar Processor (`src/lib/calendar-processor.ts`) -/

/-- The comparator `(a, b) => a.start.getTime() - b.start.getTime()` used by
both sorts in `calendar-processor.ts`, as a stable-sort `le` relation. -/
def startLe (a b : CalendarEvent) : Bool := decide (a.start ≤ b.start)

/-- The merge loop of `CalendarProcessor.generateBusyPeriods`: `cur` is the
accumulating `currentPeriod`; an event whose start is `<=` the current
period's end extends it (taking the max end and appending the event id),
otherwise the current period is emitted and a fresh one is started. -/
def CalendarProcessor.mergeBusyLoop (cur : BusyPeriod) :
    List CalendarEvent → List BusyPeriod
  | [] => [cur]
  | e :: rest =>
    if e.start ≤ cur.endTime then
      CalendarProcessor.mergeBusyLoop
        { cur with endTime := max cur.endTime e.endTime,
                   eventIds := cur.eventIds ++ [e.id] } rest
    else
      cur :: CalendarProcessor.mergeBusyLoop
        { participantId := cur.participantId, start := e.start,
          endTime := e.endTime, eventIds := [e.id] } rest

/-- Source `CalendarProcessor.generateBusyPeriods`: drop cancelled events, sort by
start, then merge overlapping-or-adjacent events into busy periods. -/
def CalendarProcessor.generateBusyPeriods (calendar : ParticipantCalendar) :
    List BusyPeriod :=
  match sortBy startLe (calendar.events.filter (fun e => decide (e.status ≠ .cancelled))) with
  | [] => []
  | e :: rest =>
    CalendarProcessor.mergeBusyLoop
      { participantId := calendar.participantId, start := e.start,
        endTime := e.endTime, eventIds := [e.id] } rest

/-- Builder for one reported `EventConflict`: the overlap window is
`[max(starts), min(ends))` and its duration is reported in minutes
(`(overlapEnd - overlapStart) / (1000 * 60)` on millisecond instants). -/
def CalendarProcessor.mkConflict (pid : Str) (e1 e2 : CalendarEvent) : EventConflict :=
  { participantId := pid, event1 := e1, event2 := e2,
    overlapStart := max e1.start e2.start,
    overlapEnd := min e1.endTime e2.endTime,
    overlapDuration :=
      ((min e1.endTime e2.endTime - max e1.start e2.start : Int) : ℚ) / (1000 * 60) }

/-- The inner `j` loop of `CalendarProcessor.detectParticipantConflicts` for a
fixed `event1`: later events are scanned in order; the first one with
`event2.start >= event1.end` stops the scan (the `break`), and a conflict is
recorded for each scanned event whose overlap window is non-degenerate
(`overlapStart < overlapEnd`). -/
def CalendarProcessor.conflictScanInner (pid : Str) (e1 : CalendarEvent) :
    List CalendarEvent → List EventConflict
  | [] => []
  | e2 :: rest =>
    if e2.start < e1.endTime then
      (if max e1.start e2.start < min e1.endTime e2.endTime then
        [CalendarProcessor.mkConflict pid e1 e2]
      else []) ++ CalendarProcessor.conflictScanInner pid e1 rest
    else []

/-- The outer `i` loop of `CalendarProcessor.detectParticipantConflicts`. -/
def CalendarProcessor.conflictScan (pid : Str) : List CalendarEvent → List EventConflict
  | [] => []
  | e1 :: rest =>
    CalendarProcessor.conflictScanInner pid e1 rest ++ CalendarProcessor.conflictScan pid rest

/-- Source `CalendarProcessor.detectParticipantConflicts`: sort the participant's
events by start, then run the pairwise sweep with early break. -/
def CalendarProcessor.detectParticipantConflicts (calendar : ParticipantCalendar) :
    List EventConflict :=
  CalendarProcessor.conflictScan calendar.participantId (sortBy startLe calendar.events)

/- ### C3: busy-period construction invariants -/

/-- Some instant `t` is covered by one of the busy periods. -/
def busyAt (ps : List BusyPeriod) (t : Int) : Prop :=
  ∃ p ∈ ps, p.start ≤ t ∧ t < p.endTime

/-- Some instant `t` is covered by one of the events' spans. -/
def eventSpanAt (evs : List CalendarEvent) (t : Int) : Prop :=
  ∃ e ∈ evs, e.start ≤ t ∧ t < e.endTime

/- ### C4: conflict detection reports exactly the overlapping sorted pairs -/

/-- The reporting the claim describes, for one fixed earlier event `e1`: every
later event `e2` with `e1.start <= e2.start` and `e2.start < e1.end` yields a
conflict carrying the overlap window. -/
def conflictPairsFor (pid : Str) (e1 : CalendarEvent) :
    List CalendarEvent → List EventConflict
  | [] => []
  | e2 :: rest =>
    (if e1.start ≤ e2.start ∧ e2.start < e1.endTime then
      [CalendarProcessor.mkConflict pid e1 e2]
    else []) ++ conflictPairsFor pid e1 rest

/-- The claim's specification of conflict detection on a start-sorted list:
exactly the pairs `(e1, e2)` with `e1` before `e2` and `e2.start < e1.end`. -/
def conflictPairsSpec (pid : Str) : List CalendarEvent → List EventConflict
  | [] => []
  | e1 :: rest => conflictPairsFor pid e1 rest ++ conflictPairsSpec pid rest

/-- The spec scenario calendar: events `[10:00, 11:00)` and `[10:30, 11:30)`
on 1970-01-01 (instants in ms). -/
def c4Calendar : ParticipantCalendar :=
  { participantId := "alice".toList, name := "Alice".toList,
    timezone := "UTC".toList,
    events :=
      [ { id := "e1".toList, summary := "standup".toList, start := 36000000,
          endTime := 39600000, timezone := "UTC".toList },
        { id := "e2".toList, summary := "review".toList, start := 37800000,
          endTime := 41400000, timezone := "UTC".toList } ],
    source := "ical".toList }

/- ### Recurrence Expander (`src/lib/recurrence-expander.ts`) -/

/-- Decimal rendering of an instant, for derived occurrence ids
(`startDate.getTime()` interpolated into a template string). -/
def intToStr (i : Int) : Str :=
  if i < 0 then '-' :: Nat.toDigits 10 i.natAbs else Nat.toDigits 10 i.toNat

/-- Source `RecurrenceExpander.eventIntersectsRange`:
`!(isAfter(event.start, range.end) || isBefore(event.end, range.start))`. -/
def RecurrenceExpander.eventIntersectsRange (event : CalendarEvent)
    (range : DateRange) : Bool :=
  !(decide (range.endTime < event.start) || decide (event.endTime < range.start))

/-- Source `RecurrenceExpander.expandSingleEvent`: a non-recurring event is returned
iff it intersects the range; for a recurring event the occurrence starts come
from `rrule.between(range.start, range.end + 1 day, true, (date, i) => i <
maxOccurrences)`, each occurrence keeps the parent's duration, derives its id
from the parent id and the occurrence start instant, and is kept only if it
intersects the range.  (The source wraps the library call in `try`/`catch`
with a fall-back to the unexpanded event; the library model is total, so the
catch branch cannot fire in the embedding.) -/
def RecurrenceExpander.expandSingleEvent (event : CalendarEvent)
    (dateRange : DateRange) (maxOccurrences : Nat := 1000) : List CalendarEvent :=
  match event.recurrence with
  | none =>
    if RecurrenceExpander.eventIntersectsRange event dateRange then [event] else []
  | some rrule =>
    let eventDuration := event.endTime - event.start
    let dates := rrule.between dateRange.start (dateRange.endTime + 86400000) true
      (fun _date i => decide (i < maxOccurrences))
    (dates.map (fun startDate =>
      { event with
        id := event.id ++ ('_' :: intToStr startDate),
        start := startDate,
        endTime := startDate + eventDuration })).filter
      (fun occurrence => RecurrenceExpander.eventIntersectsRange occurrence dateRange)

/-- A concrete unbounded weekly rule (`RRule.WEEKLY = 2`) whose abstract
enumerator yields three dates in any window. -/
def c7Rule : RRule :=
  { freq := 2, occDates := fun a b => [a, a + 604800000, b] }

/-- A concrete recurring one-hour event carrying `c7Rule`. -/
def c7Event : CalendarEvent :=
  { id := "weekly-sync".toList, summary := "sync".toList, start := 0,
    endTime := 3600000, timezone := "UTC".toList, recurrence := some c7Rule }

/- ### Meeting Scheduler (`src/lib/meeting-scheduler.ts`) -/

/-- The `HH:MM` validation regex `/^([0-1]?[0-9]|2[0-3]):[0-5][0-9]$/` of
`MeetingScheduler.validateInputs`, as a total matcher. -/
def matchesTimeFormat : Str → Bool
  | [h, c, m1, m2] =>
    c == ':' && h.isDigit && (decide ('0' ≤ m1) && decide (m1 ≤ '5')) && m2.isDigit
  | [h1, h2, c, m1, m2] =>
    c == ':' &&
      ((h1 == '0' || h1 == '1') && h2.isDigit ||
        h1 == '2' && (decide ('0' ≤ h2) && decide (h2 ≤ '3'))) &&
      (decide ('0' ≤ m1) && decide (m1 ≤ '5')) && m2.isDigit
  | _ => false

/-- Source `String.prototype.split(sep)` for a one-character separator. -/
def splitOnChar (sep : Char) : Str → List Str
  | [] => [[]]
  | c :: rest =>
    let r := splitOnChar sep rest
    if c == sep then [] :: r
    else (c :: r.headD []) :: r.tail

/-- JavaScript `Number(s)` on the strings the scheduler feeds it: a (possibly
empty) decimal digit string evaluates to its value, anything else to `NaN`
(`none`).  `validateInputs` guarantees the scheduler only reaches this on
digit strings. -/
def jsNumber (s : Str) : Option Int :=
  if s.all (·.isDigit) then
    some (s.foldl (fun acc c => acc * 10 + ((c.toNat : Int) - 48)) 0)
  else none

/-- The `const [h, m] = s.split(":").map(Number)` destructuring used by
`generateDaySlots` and `calculateTimePreferenceBonus`.  A missing component
or `NaN` is mapped to 0; `validateInputs` makes both unreachable from
`scheduleOptimalMeeting`. -/
def parseTimeParts (s : Str) : Int × Int :=
  let parts := (splitOnChar ':' s).map jsNumber
  ((parts.headD none).getD 0, ((parts.drop 1).headD none).getD 0)

/-- Source `MeetingScheduler.validateInputs`. -/
def MeetingScheduler.validateInputs (participants : List ParticipantCalendar)
    (preferences : MeetingPreferences) (searchRange : DateRange) :
    Except SchedulingError Unit :=
  if participants.isEmpty then
    .error { message := "At least one participant is required".toList,
             code := "NO_PARTICIPANTS".toList }
  else if preferences.duration ≤ 0 then
    .error { message := "Meeting duration must be positive".toList,
             code := "INVALID_DURATION".toList }
  else if searchRange.endTime ≤ searchRange.start then
    .error { message := "Search range start must be before end".toList,
             code := "INVALID_RANGE".toList }
  else if !(matchesTimeFormat preferences.timeRangeStart &&
            matchesTimeFormat preferences.timeRangeEnd) then
    .error { message := "Invalid time range format".toList,
             code := "INVALID_TIME_FORMAT".toList }
  else .ok ()

/-- Modelled from the spec: the scheduler calls
`this.calendarProcessor.getBusyPeriods(participant.events, searchRange)`, but
`calendar-processor.ts` declares no such instance method (the unit tests stub
it); the spec (§4.4, §4.5 step 1) requires it to deliver the participant's
merged busy periods for the search range.  The model expands recurring
events into the range (§4.4 step 1), keeps instants in the reference frame
(§4.4 step 2 is the identity in this embedding), and merges the
non-cancelled events into sorted disjoint busy periods (§4.4 step 5). -/
def CalendarProcessor.getBusyPeriods (pid : Str) (events : List CalendarEvent)
    (searchRange : DateRange) : List BusyPeriod :=
  CalendarProcessor.generateBusyPeriods
    { participantId := pid, name := [], timezone := "UTC".toList, source := [],
      events := (events.map
        (fun e => RecurrenceExpander.expandSingleEvent e searchRange 1000)).flatten }

/-- Source `MeetingScheduler.getAllBusyPeriods`: the busy-period `Map`, modelled as
an association list in participant order. -/
def MeetingScheduler.getAllBusyPeriods (participants : List ParticipantCalendar)
    (searchRange : DateRange) : List (Str × List BusyPeriod) :=
  participants.map (fun p =>
    (p.participantId, CalendarProcessor.getBusyPeriods p.participantId p.events searchRange))

/-- Source `MeetingScheduler.periodsOverlap`:
`period1.start < period2.end && period2.start < period1.end`. -/
def MeetingScheduler.periodsOverlap (s1 e1 s2 e2 : Int) : Bool :=
  decide (s1 < e2) && decide (s2 < e1)

/-- Source `MeetingScheduler.findSlotConflicts`: every participant one of whose busy
periods strictly overlaps the slot is recorded, in map-insertion order. -/
def MeetingScheduler.findSlotConflicts (slotStart slotEnd : Int)
    (busyPeriods : List (Str × List BusyPeriod)) : List Str :=
  (busyPeriods.filter (fun entry =>
    entry.2.any (fun period =>
      MeetingScheduler.periodsOverlap slotStart slotEnd period.start period.endTime))).map
    (fun entry => entry.1)

/-- The 15-minute stride loop of `MeetingScheduler.generateDaySlots`.  `fuel`
strictly dominates the number of iterations (each one advances the candidate
start by 15 minutes), so the loop always stops on its guard
`currentSlotStart + slotDuration <= dayEnd` and never exhausts the fuel. -/
def MeetingScheduler.daySlotLoop (preferences : MeetingPreferences)
    (slotDuration : Int) (busyPeriods : List (Str × List BusyPeriod))
    (dayEnd : Int) : Nat → Int → List TimeSlot
  | 0, _ => []
  | fuel + 1, currentSlotStart =>
    if addMinutes currentSlotStart slotDuration ≤ dayEnd then
      { start := currentSlotStart,
        endTime := addMinutes currentSlotStart preferences.duration,
        score := 0,
        conflicts := MeetingScheduler.findSlotConflicts currentSlotStart
          (addMinutes currentSlotStart preferences.duration) busyPeriods,
        timezoneDisplay := [] } ::
      MeetingScheduler.daySlotLoop preferences slotDuration busyPeriods dayEnd fuel
        (addMinutes currentSlotStart 15)
    else []

/-- Source `MeetingScheduler.generateDaySlots`: candidates every 15 minutes inside
the business hours of `date`, kept while start + duration + buffer fits
before `dayEnd`; a slot's own `end` reflects only the meeting duration. -/
def MeetingScheduler.generateDaySlots (date : Int) (preferences : MeetingPreferences)
    (slotDuration : Int) (busyPeriods : List (Str × List BusyPeriod)) : List TimeSlot :=
  let sp := parseTimeParts preferences.timeRangeStart
  let ep := parseTimeParts preferences.timeRangeEnd
  let dayStart := jsSetHours date sp.1 sp.2
  let dayEnd := jsSetHours date ep.1 ep.2
  MeetingScheduler.daySlotLoop preferences slotDuration busyPeriods dayEnd
    (((dayEnd - slotDuration * 60000 - dayStart).fdiv 900000).toNat + 2) dayStart

/-- The day-by-day loop of `MeetingScheduler.findCandidateTimeSlots`: skipped
weekend days and excluded dates advance to the next day like processed days,
so each iteration adds 24 * 60 minutes and `fuel` (one unit per day in the
window, plus slack) dominates the iteration count; the loop always stops on
its guard `currentDate <= endDate`. -/
def MeetingScheduler.candidateDayLoop (preferences : MeetingPreferences)
    (slotDuration : Int) (busyPeriods : List (Str × List BusyPeriod))
    (endDate : Int) : Nat → Int → List TimeSlot
  | 0, _ => []
  | fuel + 1, currentDate =>
    if currentDate ≤ endDate then
      if preferences.excludeWeekends && isWeekend currentDate then
        MeetingScheduler.candidateDayLoop preferences slotDuration busyPeriods endDate
          fuel (addMinutes currentDate (24 * 60))
      else if preferences.excludedDates.any
          (fun date => startOfDay date == startOfDay currentDate) then
        MeetingScheduler.candidateDayLoop preferences slotDuration busyPeriods endDate
          fuel (addMinutes currentDate (24 * 60))
      else
        MeetingScheduler.generateDaySlots currentDate preferences slotDuration busyPeriods ++
        MeetingScheduler.candidateDayLoop preferences slotDuration busyPeriods endDate
          fuel (addMinutes currentDate (24 * 60))
    else []

/-- Source `MeetingScheduler.findCandidateTimeSlots`. -/
def MeetingScheduler.findCandidateTimeSlots (searchRange : DateRange)
    (preferences : MeetingPreferences)
    (busyPeriods : List (Str × List BusyPeriod)) : List TimeSlot :=
  let slotDuration := preferences.duration + preferences.bufferTime
  let currentDate := startOfDay searchRange.start
  let endDate := endOfDay searchRange.endTime
  MeetingScheduler.candidateDayLoop preferences slotDuration busyPeriods endDate
    (((endDate - currentDate).fdiv 86400000).toNat + 2) currentDate

/-- Source `MeetingScheduler.calculateTimePreferenceBonus`: up to 10 points,
linearly decaying with the distance of the slot's start (reference-frame
wall clock) from the midpoint of the business-hours window. -/
def MeetingScheduler.calculateTimePreferenceBonus (slot : TimeSlot)
    (preferences : MeetingPreferences) : ℚ :=
  let timeInMinutes : ℚ := ((jsGetHours slot.start * 60 + jsGetMinutes slot.start : Int) : ℚ)
  let sp := parseTimeParts preferences.timeRangeStart
  let ep := parseTimeParts preferences.timeRangeEnd
  let businessStart : ℚ := ((sp.1 * 60 + sp.2 : Int) : ℚ)
  let businessEnd : ℚ := ((ep.1 * 60 + ep.2 : Int) : ℚ)
  let businessMiddle : ℚ := (businessStart + businessEnd) / 2
  let distanceFromMiddle : ℚ := |timeInMinutes - businessMiddle|
  let maxDistance : ℚ := (businessEnd - businessStart) / 2
  max 0 (10 * (1 - distanceFromMiddle / maxDistance))

/-- Source `MeetingScheduler.calculateTimezoneBonus`: up to 5 points, proportional
to the fraction of participants whose home zone is preferred. -/
def MeetingScheduler.calculateTimezoneBonus (_slot : TimeSlot)
    (preferences : MeetingPreferences)
    (participants : List ParticipantCalendar) : ℚ :=
  if preferences.preferredTimezones.isEmpty then 0
  else
    ((participants.filter
      (fun p => preferences.preferredTimezones.contains p.timezone)).length : ℚ) /
      (participants.length : ℚ) * 5

/-- First-occurrence deduplication, modelling `[...new Set(xs)]`. -/
def uniqueFirstAux [BEq α] (seen : List α) : List α → List α
  | [] => []
  | x :: xs =>
    if seen.contains x then uniqueFirstAux seen xs
    else x :: uniqueFirstAux (x :: seen) xs

/-- Source `[...new Set(xs)]`: keep the first occurrence of each element. -/
def uniqueFirst [BEq α] (l : List α) : List α := uniqueFirstAux [] l

/-- Source `MeetingScheduler.generateTimezoneDisplay`: one entry per distinct
participant timezone; the source renders the slot as a formatted string via
`formatInTimeZone` (falling back to UTC formatting), which this embedding
abstracts to the pair of raw instants being formatted. -/
def MeetingScheduler.generateTimezoneDisplay (slot : TimeSlot)
    (participants : List ParticipantCalendar) : List (Str × Int × Int) :=
  (uniqueFirst (participants.map (fun p => p.timezone))).map
    (fun timezone => (timezone, slot.start, slot.endTime))

/-- The per-slot body of `MeetingScheduler.scoreTimeSlots`: start at 100,
subtract `(conflicts / participants) * 50`, add the time-of-day and timezone
bonuses, clamp into [0, 100], and populate the timezone display. -/
def MeetingScheduler.scoreSlot (preferences : MeetingPreferences)
    (participants : List ParticipantCalendar) (slot : TimeSlot) : TimeSlot :=
  let conflictPenalty : ℚ :=
    ((slot.conflicts.length : ℚ) / (participants.length : ℚ)) * 50
  let score : ℚ := 100 - conflictPenalty +
    MeetingScheduler.calculateTimePreferenceBonus slot preferences +
    MeetingScheduler.calculateTimezoneBonus slot preferences participants
  { slot with
    timezoneDisplay := MeetingScheduler.generateTimezoneDisplay slot participants,
    score := max 0 (min 100 score) }

/-- Source `MeetingScheduler.scoreTimeSlots`. -/
def MeetingScheduler.scoreTimeSlots (slots : List TimeSlot)
    (preferences : MeetingPreferences)
    (participants : List ParticipantCalendar) : List TimeSlot :=
  slots.map (MeetingScheduler.scoreSlot preferences participants)

/-- JavaScript object-key insertion: overwrite an existing key, else append. -/
def setKey (m : List (Str × Nat)) (k : Str) (v : Nat) : List (Str × Nat) :=
  if m.any (fun entry => entry.1 == k) then
    m.map (fun entry => if entry.1 == k then (entry.1, v) else entry)
  else m ++ [(k, v)]

/-- Source `participantConflicts[participantId]++` on an initialized tally.  (For an
id missing from the record JavaScript would store `NaN`; the scheduling
pipeline only ever counts ids of initialized participants, and the model
leaves the tally unchanged in that unreachable case.) -/
def bumpCount (m : List (Str × Nat)) (k : Str) : List (Str × Nat) :=
  m.map (fun entry => if entry.1 == k then (entry.1, entry.2 + 1) else entry)

/-- Source `MeetingScheduler.analyzeConflicts`: total conflicts, per-participant
tallies (initialized to 0 for every participant), and the per-slot conflict
map keyed by the slot's start/end pair (the source keys by the ISO-rendered
`start-end` string, which is in bijection with the pair). -/
def MeetingScheduler.analyzeConflicts (slots : List TimeSlot)
    (participants : List ParticipantCalendar) : ConflictSummary :=
  let init := participants.foldl (fun m p => setKey m p.participantId 0) []
  { totalConflicts := slots.foldl (fun n slot => n + slot.conflicts.length) 0,
    participantConflicts :=
      slots.foldl (fun m slot => slot.conflicts.foldl bumpCount m) init,
    conflictsByTimeSlot :=
      slots.map (fun slot => ((slot.start, slot.endTime), slot.conflicts)) }

/-- The comparator `(a, b) => b.score - a.score` of
`MeetingScheduler.getTopRecommendations`, as a stable-sort `le` relation. -/
def scoreDescLe (a b : TimeSlot) : Bool := decide (b.score ≤ a.score)

/-- Source `MeetingScheduler.getTopRecommendations`: sort by score descending (in
place, in the source) and slice the first `count`. -/
def MeetingScheduler.getTopRecommendations (slots : List TimeSlot) (count : Nat) :
    List TimeSlot :=
  (sortBy scoreDescLe slots).take count

/-- Source `MeetingScheduler.scheduleOptimalMeeting`.  `getTopRecommendations` sorts
the `scoredSlots` array in place and the returned object aliases that same
array as `availableSlots`, so the result's `availableSlots` is the
score-sorted list, not the generation-ordered one (`analyzeConflicts` runs
before the sort, on the same multiset of slots). -/
def MeetingScheduler.scheduleOptimalMeeting (participants : List ParticipantCalendar)
    (preferences : MeetingPreferences) (searchRange : DateRange) :
    Except SchedulingError SchedulingResult :=
  match MeetingScheduler.validateInputs participants preferences searchRange with
  | .error e => .error e
  | .ok _ =>
    let busyPeriods := MeetingScheduler.getAllBusyPeriods participants searchRange
    let candidateSlots :=
      MeetingScheduler.findCandidateTimeSlots searchRange preferences busyPeriods
    let scoredSlots :=
      MeetingScheduler.scoreTimeSlots candidateSlots preferences participants
    let conflictAnalysis := MeetingScheduler.analyzeConflicts scoredSlots participants
    .ok { availableSlots := sortBy scoreDescLe scoredSlots,
          conflictAnalysis := conflictAnalysis,
          recommendations := MeetingScheduler.getTopRecommendations scoredSlots 5 }

/-- The record returned by `MeetingScheduler.findAlternativeSuggestions`. -/
structure AlternativeSuggestions where
  shorterDuration : List TimeSlot
  expandedHours : List TimeSlot
  fewerParticipants : List TimeSlot

/-- The comparator `(a, b) => a.conflicts.length - b.conflicts.length`. -/
def conflictCountLe (a b : TimeSlot) : Bool :=
  decide (a.conflicts.length ≤ b.conflicts.length)

/-- Source `MeetingScheduler.findAlternativeSuggestions`: keep the slots with at
least one conflict and strictly fewer conflicts than `availableSlots[0]`,
sort them by conflict count and take three.  (On an empty `availableSlots`
the filter runs over the empty list, so the `availableSlots[0]?.conflicts`
optional-chaining never fires — any head default is equivalent.) -/
def MeetingScheduler.findAlternativeSuggestions (result : SchedulingResult)
    (_preferences : MeetingPreferences) : AlternativeSuggestions :=
  { shorterDuration := [],
    expandedHours := [],
    fewerParticipants :=
      (sortBy conflictCountLe (result.availableSlots.filter (fun slot =>
        decide (0 < slot.conflicts.length) &&
        decide (slot.conflicts.length <
          (result.availableSlots.headD
            { start := 0, endTime := 0, score := 0, conflicts := [],
              timezoneDisplay := [] }).conflicts.length)))).take 3 }

/-- Well-formed scheduling preferences reused by concrete witnesses. -/
def basicPrefs : MeetingPreferences :=
  { duration := 60, timeRangeStart := "09:00".toList,
    timeRangeEnd := "17:00".toList, bufferTime := 0, excludeWeekends := true,
    excludedDates := [], preferredTimezones := [] }

/-- Two-participant calendar set for the C8 witness. -/
def c8Participants : List ParticipantCalendar :=
  [ { participantId := "alice".toList, name := "Alice".toList,
      timezone := "UTC".toList, events := [], source := "ical".toList },
    { participantId := "bob".toList, name := "Bob".toList,
      timezone := "UTC".toList, events := [], source := "ical".toList } ]

/-- A conflict-free 13:00 slot. -/
def c8Slot1 : TimeSlot :=
  { start := 46800000, endTime := 50400000, score := 0, conflicts := [],
    timezoneDisplay := [] }

/-- The same slot with one participant conflict. -/
def c8Slot2 : TimeSlot :=
  { start := 46800000, endTime := 50400000, score := 0,
    conflicts := ["bob".toList], timezoneDisplay := [] }

/- ### C9: fewer-participants suggestions stay under the worst conflict count -/

/-- The worst (maximum) conflict count among a list of slots. -/
def maxConflictCount (slots : List TimeSlot) : Nat :=
  slots.foldr (fun s n => max s.conflicts.length n) 0

/-- A result whose head slot has two conflicts and whose second slot has one. -/
def c9Result : SchedulingResult :=
  { availableSlots :=
      [ { start := 0, endTime := 3600000, score := 0,
          conflicts := ["alice".toList, "bob".toList], timezoneDisplay := [] },
        { start := 900000, endTime := 4500000, score := 0,
          conflicts := ["alice".toList], timezoneDisplay := [] } ],
    conflictAnalysis := { totalConflicts := 3, participantConflicts := [],
                          conflictsByTimeSlot := [] },
    recommendations := [] }

/- ### C1: the two-participant no-event scenario -/

/-- Two participants with empty event lists. -/
def scenarioParticipants : List ParticipantCalendar :=
  [ { participantId := "p1".toList, name := "P One".toList,
      timezone := "UTC".toList, events := [], source := "ical".toList },
    { participantId := "p2".toList, name := "P Two".toList,
      timezone := "UTC".toList, events := [], source := "ical".toList } ]

/-- A one-weekday search window: 1970-01-01 (a Thursday), whole day. -/
def scenarioRange : DateRange := { start := 0, endTime := 86399999 }

/-- The busy-period map of the scenario. -/
def scenarioBusy : List (Str × List BusyPeriod) :=
  MeetingScheduler.getAllBusyPeriods scenarioParticipants scenarioRange

/-- The candidate slots of the scenario. -/
def scenarioCandidates : List TimeSlot :=
  MeetingScheduler.findCandidateTimeSlots scenarioRange basicPrefs scenarioBusy

/-- The scored slots of the scenario. -/
def scenarioScored : List TimeSlot :=
  MeetingScheduler.scoreTimeSlots scenarioCandidates basicPrefs scenarioParticipants

/-- The scenario run itself. -/
def scenarioRun : Except SchedulingError SchedulingResult :=
  MeetingScheduler.scheduleOptimalMeeting scenarioParticipants basicPrefs scenarioRange

/-- The candidate starts the claim expects: every 15 minutes from 09:00
through 16:00 inclusive on 1970-01-01, as instants. -/
def expectedStarts : List Int :=
  (List.range 29).map (fun k => 32400000 + 900000 * (k : Int))

/-- The score of the (first) slot starting at `t` (0 when there is none). -/
def scoreAtStart (slots : List TimeSlot) (t : Int) : ℚ :=
  ((slots.filter (fun s => s.start == t)).map (fun s => s.score)).headD 0

deriving instance DecidableEq for Except

/-- One empty-calendar participant for the C10 witness run. -/
def c10Participants : List ParticipantCalendar :=
  [ { participantId := "alice".toList, name := "Alice".toList,
      timezone := "UTC".toList, events := [], source := "ical".toList } ]

/-- Preferences whose 10-hour duration exceeds the business window, so the
witness run succeeds with zero candidate slots. -/
def c10Prefs : MeetingPreferences :=
  { duration := 600, timeRangeStart := "09:00".toList,
    timeRangeEnd := "17:00".toList, bufferTime := 0, excludeWeekends := true,
    excludedDates := [], preferredTimezones := [] }

/-- The result of the C10 witness run. -/
def c10Result : SchedulingResult :=
  { availableSlots := [],
    conflictAnalysis := { totalConflicts := 0,
                          participantConflicts := [("alice".toList, 0)],
                          conflictsByTimeSlot := [] },
    recommendations := [] }

/- ### iCal Parser (`src/lib/ical-parser.ts`) -/

/-- Source `ICalParseError`. -/
structure ICalParseError where
  message : Str
  line : Option Int := none
  property : Option Str := none
deriving DecidableEq

/-- A stored property value: a string, or a list of strings once a property
name repeats inside one component (needed for `EXDATE`). -/
inductive PropVal where
  | single (v : Str)
  | multi (vs : List Str)
deriving DecidableEq

/-- A parsed iCal component. -/
structure ICalComponent where
  type : Str
  properties : List (Str × PropVal)
deriving DecidableEq

/-- JavaScript `String.prototype.includes(pat)` on character lists. -/
def isSubstr (pat : Str) : Str → Bool
  | [] => pat.isEmpty
  | c :: rest => pat.isPrefixOf (c :: rest) || isSubstr pat rest

/-- The whitespace characters `String.prototype.trim` and `\s` remove. -/
def isWhitespaceChar (c : Char) : Bool :=
  c == ' ' || c == '\t' || c == '\n' || c == '\r'

/-- JavaScript `String.prototype.trim`. -/
def trimStr (s : Str) : Str :=
  ((s.dropWhile isWhitespaceChar).reverse.dropWhile isWhitespaceChar).reverse

/-- Source `content.split(/\r?\n/)`: split on newlines, consuming one carriage
return immediately before each newline. -/
def splitLines : Str → List Str
  | [] => [[]]
  | '\r' :: '\n' :: rest => [] :: splitLines rest
  | '\n' :: rest => [] :: splitLines rest
  | c :: rest =>
    match splitLines rest with
    | [] => [[c]]
    | l :: ls => (c :: l) :: ls

/-- Does a raw line start with a space or tab (a folded continuation line)? -/
def startsWithSpaceTab : Str → Bool
  | [] => false
  | c :: _ => c == ' ' || c == '\t'

/-- The inner unfolding `while` of `ICalParser.preprocessICalContent`: absorb
following continuation lines, dropping their first character. -/
def ICalParser.absorbCont (acc : Str) : List Str → Str × List Str
  | [] => (acc, [])
  | l :: rest =>
    if startsWithSpaceTab l then ICalParser.absorbCont (acc ++ l.drop 1) rest
    else (acc, l :: rest)

/-- The outer loop of `ICalParser.preprocessICalContent`: skip blank lines,
unfold continuations, trim each logical line.  `fuel` (one unit per raw
line) dominates the iteration count, since every iteration consumes at
least one raw line. -/
def ICalParser.unfoldLoop : Nat → List Str → List Str
  | 0, _ => []
  | _fuel + 1, [] => []
  | fuel + 1, line :: rest =>
    if (trimStr line).isEmpty then ICalParser.unfoldLoop fuel rest
    else
      trimStr (ICalParser.absorbCont line rest).1 ::
        ICalParser.unfoldLoop fuel (ICalParser.absorbCont line rest).2

/-- Source `ICalParser.preprocessICalContent`. -/
def ICalParser.preprocessICalContent (content : Str) : List Str :=
  ICalParser.unfoldLoop (splitLines content).length (splitLines content)

/-- Split at the first occurrence of `sep`, when present. -/
def splitAtFirst (sep : Char) : Str → Option (Str × Str)
  | [] => none
  | c :: rest =>
    if c == sep then some ([], rest)
    else
      match splitAtFirst sep rest with
      | none => none
      | some (a, b) => some (c :: a, b)

/-- Property insertion of `ICalParser.parseComponents`: a repeated name turns
the stored value into a list and appends; a fresh name is appended as a
single value (JavaScript object keys keep insertion order). -/
def ICalParser.propInsert (props : List (Str × PropVal)) (name : Str) (v : Str) :
    List (Str × PropVal) :=
  if props.any (fun entry => entry.1 == name) then
    props.map (fun entry =>
      if entry.1 == name then
        (entry.1, match entry.2 with
          | .single old => PropVal.multi [old, v]
          | .multi olds => PropVal.multi (olds ++ [v]))
      else entry)
  else props ++ [(name, PropVal.single v)]

/-- The line loop of `ICalParser.parseComponents`: `BEGIN:` opens a fresh
component (discarding any unfinished one), `END:` emits the current
component, and a `NAME[;params]:value` line inside a component stores the
value under `NAME` — keeping the full `propertyPart:value` text when
parameters are present. -/
def ICalParser.parseComponentsLoop (current : Option ICalComponent) :
    List Str → List ICalComponent
  | [] => []
  | line :: rest =>
    if "BEGIN:".toList.isPrefixOf line then
      ICalParser.parseComponentsLoop (some { type := line.drop 6, properties := [] }) rest
    else if "END:".toList.isPrefixOf line then
      match current with
      | some comp => comp :: ICalParser.parseComponentsLoop none rest
      | none => ICalParser.parseComponentsLoop none rest
    else
      match current, splitAtFirst ':' line with
      | some comp, some (propertyPart, value) =>
        let propertyName := propertyPart.takeWhile (fun c => !(c == ';'))
        let fullPropertyValue :=
          if propertyPart.any (fun c => c == ';') then propertyPart ++ ':' :: value
          else value
        ICalParser.parseComponentsLoop
          (some { comp with
            properties := ICalParser.propInsert comp.properties propertyName
              fullPropertyValue }) rest
      | _, _ => ICalParser.parseComponentsLoop current rest

/-- Source `ICalParser.parseComponents`. -/
def ICalParser.parseComponents (lines : List Str) : List ICalComponent :=
  ICalParser.parseComponentsLoop none lines

/-- Look a property up by name (names are unique by `propInsert`). -/
def ICalParser.getProp (props : List (Str × PropVal)) (name : Str) : Option PropVal :=
  (props.find? (fun entry => entry.1 == name)).map (fun entry => entry.2)

/-- JavaScript `parseInt` on the substrings the parser extracts: the value of
a leading run of decimal digits, `NaN` (`none`) when there is none. -/
def jsParseInt (s : Str) : Option Int :=
  let ds := s.takeWhile (fun c => c.isDigit)
  if ds.isEmpty then none
  else some (ds.foldl (fun acc c => acc * 10 + ((c.toNat : Int) - 48)) 0)

/-- Days from the epoch to year/month/day in the proleptic Gregorian
calendar — the arithmetic behind the JavaScript `Date(year, month, day)`
constructor; out-of-range months and days roll over. -/
def daysFromCivil (year month day : Int) : Int :=
  let y := year + month.fdiv 12
  let m := month.emod 12 + 1
  let yy := if m ≤ 2 then y - 1 else y
  let era := yy.fdiv 400
  let yoe := yy - era * 400
  let doy := (153 * (m + (if m > 2 then -3 else 9)) + 2).fdiv 5 + day - 1
  let doe := yoe * 365 + yoe.fdiv 4 - yoe.fdiv 100 + doy
  era * 146097 + doe - 719468

/-- Source `new Date(year, month, day, hour, minute, second).getTime()` for a UTC
runtime; years 0-99 are interpreted as 1900 + year, as JavaScript does. -/
def jsMakeDate (year month day hour minute second : Int) : Int :=
  let year := if 0 ≤ year ∧ year ≤ 99 then 1900 + year else year
  daysFromCivil year month day * 86400000 +
    hour * 3600000 + minute * 60000 + second * 1000

/-- The substring after the last `:` (`substring(lastIndexOf(":") + 1)`). -/
def afterLastColon (s : Str) : Str :=
  (s.reverse.takeWhile (fun c => !(c == ':'))).reverse

/-- Source `ICalParser.parseDateTime`, parameterized by the behavior `pISO` of the
external `date-fns` `parseISO` fallback (`none` models an Invalid Date):
all theorems below hold for every `pISO`.  A compact `YYYYMMDDTHHMMSS[Z]`
value is decoded positionally; with the runtime timezone modelled as UTC the
`Z` adjustment by `getTimezoneOffset` is the identity.  (`parseInt` returning
`NaN` on a 15-character value silently yields an Invalid Date in JavaScript;
the embedding conservatively reports that corner as an invalid-date error,
which the per-event recovery turns into a skip.) -/
def ICalParser.parseDateTime (pISO : Str → Option Int) (dateTimeStr : Str) :
    Except ICalParseError Int :=
  let c1 := if dateTimeStr.any (fun c => c == ':') then afterLastColon dateTimeStr
            else dateTimeStr
  let c2 := if c1.getLast? == some 'Z' then c1.dropLast else c1
  if c2.length == 15 && c2.any (fun c => c == 'T') then
    match splitAtFirst 'T' c2 with
    | some (datePart, timePart) =>
      match jsParseInt (datePart.take 4), jsParseInt ((datePart.drop 4).take 2),
            jsParseInt ((datePart.drop 6).take 2), jsParseInt (timePart.take 2),
            jsParseInt ((timePart.drop 2).take 2), jsParseInt ((timePart.drop 4).take 2) with
      | some year, some month, some day, some hour, some minute, some second =>
        .ok (jsMakeDate year (month - 1) day hour minute second)
      | _, _, _, _, _, _ =>
        .error { message := ("Invalid date format: ".toList ++ dateTimeStr) }
    | none => .error { message := ("Invalid date format: ".toList ++ dateTimeStr) }
  else
    match pISO c2 with
    | some t => .ok t
    | none => .error { message := ("Invalid date format: ".toList ++ dateTimeStr) }

/-- One optional regex group `(?:(\d+)X)?`: greedily read digits followed by
the letter; when absent, consume nothing. -/
def durGroup (letter : Char) (s : Str) : Option Int × Str :=
  let ds := s.takeWhile (fun c => c.isDigit)
  let rest := s.drop ds.length
  if !ds.isEmpty && rest.headD ' ' == letter then (jsParseInt ds, rest.drop 1)
  else (none, s)

/-- The position after the first occurrence of the literal `PT`, where the
duration regex `/PT(?:(\d+)H)?(?:(\d+)M)?(?:(\d+)S)?/` matches. -/
def findAfterPT : Str → Option Str
  | [] => none
  | 'P' :: 'T' :: rest => some rest
  | _ :: rest => findAfterPT rest

/-- Source `ICalParser.calculateEndFromDuration`: every group is optional, an
unmatched group contributes 0 (`parseInt(match[i] || "0")`), and the match
fails only when no `PT` occurs at all. -/
def ICalParser.calculateEndFromDuration (startDate : Int) (duration : Str) :
    Except ICalParseError Int :=
  match findAfterPT duration with
  | none => .error { message := ("Invalid duration format: ".toList ++ duration) }
  | some rest =>
    let hg := durGroup 'H' rest
    let mg := durGroup 'M' hg.2
    let sg := durGroup 'S' mg.2
    .ok (startDate +
      ((hg.1.getD 0) * 3600 + (mg.1.getD 0) * 60 + sg.1.getD 0) * 1000)

/-- The value of the first `TZID=([^:;]+)` match, scanning occurrence by
occurrence as a regex engine does (an empty capture fails that position). -/
def findTZIDValue : Str → Option Str
  | [] => none
  | c :: rest =>
    if "TZID=".toList.isPrefixOf (c :: rest) then
      let tz := ((c :: rest).drop 5).takeWhile (fun ch => !(ch == ':') && !(ch == ';'))
      if tz.isEmpty then findTZIDValue rest else some tz
    else findTZIDValue rest

/-- Source `ICalParser.extractEventTimezone`. -/
def ICalParser.extractEventTimezone (dateTimeStr : Str) : Option Str :=
  if dateTimeStr.getLast? == some 'Z' then some "UTC".toList
  else findTZIDValue dateTimeStr

/-- Source `ICalParser.parseStatus`. -/
def ICalParser.parseStatus (status : Option Str) : EventStatus :=
  match status with
  | none => .confirmed
  | some s =>
    let u := s.map Char.toUpper
    if u == "TENTATIVE".toList then .tentative
    else if u == "CANCELLED".toList then .cancelled
    else .confirmed

/-- Source `ICalParser.mapFrequency`, with the library's frequency constants
`YEARLY = 0 ... SECONDLY = 6`.  The source computes
`freqMap[freq] || RRule.WEEKLY`, and `RRule.YEARLY` is `0`, which is falsy
in JavaScript — so even the recognized token `YEARLY` falls back to the
weekly frequency (2), as does every unrecognized token. -/
def ICalParser.mapFrequency (freq : Str) : Int :=
  let looked : Option Int :=
    if freq == "YEARLY".toList then some 0
    else if freq == "MONTHLY".toList then some 1
    else if freq == "WEEKLY".toList then some 2
    else if freq == "DAILY".toList then some 3
    else if freq == "HOURLY".toList then some 4
    else if freq == "MINUTELY".toList then some 5
    else if freq == "SECONDLY".toList then some 6
    else none
  match looked with
  | some n => if n == 0 then 2 else n
  | none => 2

/-- Source `ICalParser.parseByDay` (`dayMap[clean] || 0`; the library's weekday
constants are `MO = 0 ... SU = 6`; the regex `/^[-+]?\d*/` strips one
optional sign and leading digits). -/
def ICalParser.parseByDay (byday : Str) : List Int :=
  (splitOnChar ',' byday).map (fun day =>
    let d1 := match day with
      | c :: rest => if c == '+' || c == '-' then rest else day
      | [] => day
    let cleanDay := d1.dropWhile (fun c => c.isDigit)
    if cleanDay == "MO".toList then 0
    else if cleanDay == "TU".toList then 1
    else if cleanDay == "WE".toList then 2
    else if cleanDay == "TH".toList then 3
    else if cleanDay == "FR".toList then 4
    else if cleanDay == "SA".toList then 5
    else if cleanDay == "SU".toList then 6
    else 0)

/-- Source `ICalParser.parseRecurrenceRule`: fold the `;`-separated parts into the
`RRule` options (starting from the library's default frequency, `YEARLY`).
An `UNTIL` whose date does not parse throws, and a valueless `BYDAY`
makes the JavaScript callee throw; both are modelled as errors here, and the
caller catches them.  `INTERVAL`/`COUNT` values that `parseInt` cannot read
are stored as `NaN` in JavaScript and modelled as absent options. -/
def ICalParser.parseRecurrenceRule (pISO : Str → Option Int) (rruleStr : Str)
    (dtstart : Int) : Except ICalParseError RRule :=
  (splitOnChar ';' rruleStr).foldlM (fun (options : RRule) part =>
    let kv : Str × Option Str :=
      match splitAtFirst '=' part with
      | some (k, v) => (k, some v)
      | none => (part, none)
    if kv.1 == "FREQ".toList then
      .ok { options with freq := ICalParser.mapFrequency (kv.2.getD []) }
    else if kv.1 == "INTERVAL".toList then
      .ok { options with interval := jsParseInt (kv.2.getD []) }
    else if kv.1 == "COUNT".toList then
      .ok { options with count := jsParseInt (kv.2.getD []) }
    else if kv.1 == "UNTIL".toList then
      match ICalParser.parseDateTime pISO (kv.2.getD []) with
      | .ok t => .ok { options with untilDate := some t }
      | .error e => .error e
    else if kv.1 == "BYDAY".toList then
      match kv.2 with
      | some v => .ok { options with byweekday := some (ICalParser.parseByDay v) }
      | none => .error { message := "BYDAY without a value".toList }
    else if kv.1 == "BYMONTHDAY".toList then
      .ok { options with
        bymonthday := some ((splitOnChar ',' (kv.2.getD [])).filterMap jsParseInt) }
    else if kv.1 == "BYMONTH".toList then
      .ok { options with
        bymonth := some ((splitOnChar ',' (kv.2.getD [])).filterMap jsParseInt) }
    else .ok options) { freq := 0, dtstart := dtstart }

/-- The rendering JavaScript applies when an array value lands where a string
is stored without any method call (`String(array)` joins with commas). -/
def joinComma (vs : List Str) : Str :=
  List.intercalate ",".toList vs

/-- The `FREQ=` marker `processEvent` tests with `String.prototype.includes`. -/
def freqToken : Str := "FREQ=".toList

/-- The recurrence-attachment step of `ICalParser.processEvent`: a rule
object is attached only when the raw `RRULE` value is a string containing
the substring `FREQ=` and the rule parse succeeds; a parse failure is caught
(`console.warn`) and the rule silently dropped.  For an array-valued
(repeated) `RRULE`, `Array.prototype.includes("FREQ=")` tests element
equality: either it is false, or the element equal to `"FREQ="` reaches
`parseRecurrenceRule`, whose string methods throw — caught again — so no
rule is attached either way. -/
def ICalParser.eventRecurrence (pISO : Str → Option Int)
    (rruleProp : Option PropVal) (startDate : Int) : Option RRule :=
  match rruleProp with
  | some (.single rruleStr) =>
    if isSubstr freqToken rruleStr then
      match ICalParser.parseRecurrenceRule pISO rruleStr startDate with
      | .ok r => some r
      | .error _ => none
    else none
  | some (.multi _) => none
  | none => none

/-- Source `ICalParser.processEvent`.  `!uid`/`!dtstart` are JavaScript truthiness
checks: a missing property or an empty string throws the missing-fields
error, while an array value (repeated property) is truthy — an array
`DTSTART`/`DTEND` then makes `parseDateTime`'s string methods throw, an
array `DURATION` makes the duration match throw, and an array `STATUS`
makes `toUpperCase` throw, all modelled as errors; an array `UID` or
`SUMMARY` is stored without any method call and is modelled by its
comma-joined rendering. -/
def ICalParser.processEvent (pISO : Str → Option Int) (vevent : ICalComponent) :
    Except ICalParseError (Option CalendarEvent) :=
  let props := vevent.properties
  let uidTruthy : Option Str :=
    match ICalParser.getProp props "UID".toList with
    | none => none
    | some (.single v) => if v.isEmpty then none else some v
    | some (.multi vs) => some (joinComma vs)
  match uidTruthy with
  | none => .error { message := "Event missing required UID or DTSTART".toList }
  | some uid =>
    match ICalParser.getProp props "DTSTART".toList with
    | none => .error { message := "Event missing required UID or DTSTART".toList }
    | some (.multi _) => .error { message := "DTSTART is not a string".toList }
    | some (.single dtstart) =>
      if dtstart.isEmpty then
        .error { message := "Event missing required UID or DTSTART".toList }
      else
        match ICalParser.parseDateTime pISO dtstart with
        | .error e => .error e
        | .ok startDate =>
          match (match ICalParser.getProp props "DTEND".toList with
            | some (.single dtend) => ICalParser.parseDateTime pISO dtend
            | some (.multi _) => .error { message := "DTEND is not a string".toList }
            | none =>
              match ICalParser.getProp props "DURATION".toList with
              | some (.single dur) => ICalParser.calculateEndFromDuration startDate dur
              | some (.multi _) => .error { message := "DURATION is not a string".toList }
              | none => .ok (startDate + 3600000)) with
          | .error e => .error e
          | .ok endDate =>
            match ICalParser.getProp props "STATUS".toList with
            | some (.multi _) => .error { message := "STATUS is not a string".toList }
            | statusProp =>
              .ok (some
                { id := uid,
                  summary :=
                    match ICalParser.getProp props "SUMMARY".toList with
                    | some (.single s) => if s.isEmpty then "Untitled Event".toList else s
                    | some (.multi vs) => joinComma vs
                    | none => "Untitled Event".toList,
                  start := startDate,
                  endTime := endDate,
                  timezone := (ICalParser.extractEventTimezone dtstart).getD "UTC".toList,
                  recurrence := ICalParser.eventRecurrence pISO
                    (ICalParser.getProp props "RRULE".toList) startDate,
                  status := ICalParser.parseStatus
                    (match statusProp with
                      | some (.single s) => some s
                      | _ => none) })

/-- Whether one `VEVENT` survives the per-event `try`/`catch` of
`ICalParser.extractEvents`, and the event it contributes. -/
def ICalParser.keptEvent (pISO : Str → Option Int) (vevent : ICalComponent) :
    Option CalendarEvent :=
  match ICalParser.processEvent pISO vevent with
  | .ok r => r
  | .error _ => none

/-- The `for`/`try`/`catch` loop of `ICalParser.extractEvents`: a failing
event is skipped with a logged warning and processing continues. -/
def ICalParser.extractEventsLoop (pISO : Str → Option Int) :
    List ICalComponent → List CalendarEvent
  | [] => []
  | v :: rest =>
    match ICalParser.processEvent pISO v with
    | .ok (some e) => e :: ICalParser.extractEventsLoop pISO rest
    | .ok none => ICalParser.extractEventsLoop pISO rest
    | .error _ => ICalParser.extractEventsLoop pISO rest

/-- Source `ICalParser.extractEvents`. -/
def ICalParser.extractEvents (pISO : Str → Option Int)
    (components : List ICalComponent) : List CalendarEvent :=
  ICalParser.extractEventsLoop pISO
    (components.filter (fun c => c.type == "VEVENT".toList))

/-- The fallback scan of `ICalParser.extractTimezone` over the `VEVENT`
components' `DTSTART` values.  This scan runs outside any per-event
`try`/`catch`: on an array-valued (repeated) `DTSTART` the call
`dateTimeStr.endsWith("Z")` inside `extractEventTimezone` throws a
`TypeError`, modelled as an error result. -/
def ICalParser.eventTzScan : List ICalComponent → Except ICalParseError (Option Str)
  | [] => .ok none
  | v :: rest =>
    match ICalParser.getProp v.properties "DTSTART".toList with
    | some (.single dtstart) =>
      match ICalParser.extractEventTimezone dtstart with
      | some tz =>
        if tz == "UTC".toList then ICalParser.eventTzScan rest else .ok (some tz)
      | none => ICalParser.eventTzScan rest
    | some (.multi _) =>
      .error { message :=
        "Failed to parse iCal content: dateTimeStr.endsWith is not a function".toList }
    | none => ICalParser.eventTzScan rest

/-- Source `ICalParser.extractTimezone`: prefer a truthy `VTIMEZONE` `TZID`, else
scan the events for a non-UTC zone. -/
def ICalParser.extractTimezone (components : List ICalComponent) :
    Except ICalParseError (Option Str) :=
  match components.find? (fun c => c.type == "VTIMEZONE".toList) with
  | some vtimezone =>
    match ICalParser.getProp vtimezone.properties "TZID".toList with
    | some (.single v) =>
      if v.isEmpty then
        ICalParser.eventTzScan (components.filter (fun c => c.type == "VEVENT".toList))
      else .ok (some v)
    | some (.multi vs) => .ok (some (joinComma vs))
    | none =>
      ICalParser.eventTzScan (components.filter (fun c => c.type == "VEVENT".toList))
  | none =>
    ICalParser.eventTzScan (components.filter (fun c => c.type == "VEVENT".toList))

/-- Collapse each whitespace run into one dash (`replace(/\s+/g, "-")`). -/
def collapseWs (prevWs : Bool) : Str → Str
  | [] => []
  | c :: rest =>
    if isWhitespaceChar c then
      if prevWs then collapseWs true rest else '-' :: collapseWs true rest
    else c :: collapseWs false rest

/-- The slug of `ICalParser.generateParticipantId`: lowercase, whitespace
runs to dashes, then keep only `[a-z0-9-]`. -/
def slugify (s : Str) : Str :=
  (collapseWs false (s.map Char.toLower)).filter
    (fun c => c.isLower || c.isDigit || c == '-')

/-- Source `ICalParser.generateParticipantId`: slugify the label; without a label
the source draws a random token, which the embedding fixes to a constant
(nothing observable depends on it). -/
def ICalParser.generateParticipantId (name : Option Str) : Str :=
  match name with
  | some n => slugify n
  | none => "participant-0000000".toList

/-- Source `ICalParser.parseICalContent`.  The leading marker check is the only
explicit throw; the only other failure that can escape to the surrounding
`catch` is the timezone scan's `TypeError` on an array-valued `DTSTART`,
re-wrapped there into an `ICalParseError`. -/
def ICalParser.parseICalContent (pISO : Str → Option Int) (content : Str)
    (participantName : Option Str) : Except ICalParseError ParticipantCalendar :=
  if !(isSubstr "BEGIN:VCALENDAR".toList content) then
    .error { message := "Invalid iCal content: Missing BEGIN:VCALENDAR".toList }
  else
    let components := ICalParser.parseComponents (ICalParser.preprocessICalContent content)
    let events := ICalParser.extractEvents pISO components
    match ICalParser.extractTimezone components with
    | .error e => .error e
    | .ok tz =>
      .ok { participantId := ICalParser.generateParticipantId participantName,
            name := participantName.getD "Unknown Participant".toList,
            timezone := tz.getD "UTC".toList,
            events := events,
            source := "ical".toList }

/- ### C5: recurrence attachment -/

/-- The frequency tokens `mapFrequency` recognizes. -/
def recognizedFrequency (s : Str) : Bool :=
  s == "YEARLY".toList || s == "MONTHLY".toList || s == "WEEKLY".toList ||
  s == "DAILY".toList || s == "HOURLY".toList || s == "MINUTELY".toList ||
  s == "SECONDLY".toList

/-- The claim's guard: some `;`-part of the rule string is a frequency token
`FREQ=<value>` with a recognized value. -/
def hasRecognizedFreqToken (s : Str) : Bool :=
  (splitOnChar ';' s).any (fun part =>
    "FREQ=".toList.isPrefixOf part && recognizedFrequency (part.drop 5))

/-- A `VEVENT` whose rule has an unrecognized frequency value. -/
def c5Vevent : ICalComponent :=
  { type := "VEVENT".toList,
    properties :=
      [ ("UID".toList, PropVal.single "e1".toList),
        ("DTSTART".toList, PropVal.single "20240101T100000Z".toList),
        ("RRULE".toList, PropVal.single "FREQ=FOO".toList) ] }

/-- A `parseISO` fallback that accepts nothing (an always-Invalid Date). -/
def noISO : Str → Option Int := fun _ => none

/-- The plain `VEVENT` of the C5 witness. -/
def c5WitnessVevent : ICalComponent :=
  { type := "VEVENT".toList,
    properties :=
      [ ("UID".toList, PropVal.single "e1".toList),
        ("DTSTART".toList, PropVal.single "19700102T000000Z".toList) ] }

/-- The event the C5 witness run produces. -/
def c5WitnessEvent : CalendarEvent :=
  { id := "e1".toList, summary := "Untitled Event".toList, start := 86400000,
    endTime := 90000000, timezone := "UTC".toList, recurrence := none,
    status := .confirmed }

/-- Markers present, yet the parse fails: the second `DTSTART` turns the
property into an array, the per-event recovery skips the event, but the
calendar-level timezone scan then calls `endsWith` on the array. -/
def c6BadContent : Str :=
  ("BEGIN:VCALENDAR\nBEGIN:VEVENT\nUID:e1\nDTSTART:20240101T100000Z\n" ++
   "DTSTART:20240101T110000Z\nEND:VEVENT\nEND:VCALENDAR").toList

/- ### Theorems -/

theorem mem_insertBy (le : α → α → Bool) (x : α) (l : List α) (a : α) :
    a ∈ insertBy le x l ↔ a = x ∨ a ∈ l := by
  induction l with
  | nil => simp [insertBy]
  | cons y ys ih =>
    cases h : le x y with
    | true => simp [insertBy, h]
    | false =>
      simp only [insertBy, h, Bool.false_eq_true, if_false, List.mem_cons, ih]
      tauto

theorem mem_sortBy (le : α → α → Bool) (l : List α) (a : α) :
    a ∈ sortBy le l ↔ a ∈ l := by
  induction l with
  | nil => simp [sortBy]
  | cons x xs ih =>
    simp only [sortBy, mem_insertBy, List.mem_cons, ih]

theorem pairwise_insertBy (le : α → α → Bool)
    (htot : ∀ a b, le a b = true ∨ le b a = true)
    (htrans : ∀ a b c, le a b = true → le b c = true → le a c = true)
    (x : α) (l : List α) (hl : l.Pairwise (fun a b => le a b = true)) :
    (insertBy le x l).Pairwise (fun a b => le a b = true) := by
  induction l with
  | nil => simp [insertBy]
  | cons y ys ih =>
    rcases List.pairwise_cons.mp hl with ⟨hy, hys⟩
    cases h : le x y with
    | true =>
      rw [insertBy, if_pos h]
      refine List.pairwise_cons.mpr ⟨?_, hl⟩
      intro b hb
      rcases List.mem_cons.mp hb with rfl | hb
      · exact h
      · exact htrans x y b h (hy b hb)
    | false =>
      rw [insertBy, if_neg (by simp [h])]
      refine List.pairwise_cons.mpr ⟨?_, ih hys⟩
      intro b hb
      rcases (mem_insertBy le x ys b).mp hb with rfl | hb
      · rcases htot b y with hby | hyb
        · exact absurd hby (by simp [h])
        · exact hyb
      · exact hy b hb

theorem pairwise_sortBy (le : α → α → Bool)
    (htot : ∀ a b, le a b = true ∨ le b a = true)
    (htrans : ∀ a b c, le a b = true → le b c = true → le a c = true)
    (l : List α) : (sortBy le l).Pairwise (fun a b => le a b = true) := by
  induction l with
  | nil => simp [sortBy]
  | cons x xs ih => exact pairwise_insertBy le htot htrans x _ ih

theorem sortBy_eq_of_pairwise (le : α → α → Bool) (l : List α)
    (h : l.Pairwise (fun a b => le a b = true)) : sortBy le l = l := by
  induction l with
  | nil => rfl
  | cons x xs ih =>
    rcases List.pairwise_cons.mp h with ⟨hx, hxs⟩
    rw [sortBy, ih hxs]
    cases xs with
    | nil => rfl
    | cons y ys => rw [insertBy, if_pos (hx y (List.mem_cons_self y ys))]

theorem mergeBusyLoop_start_le (cur : BusyPeriod) (l : List CalendarEvent) (x : Int)
    (hcur : x ≤ cur.start) (hl : ∀ e ∈ l, x ≤ e.start) :
    ∀ p ∈ CalendarProcessor.mergeBusyLoop cur l, x ≤ p.start := by
  induction l generalizing cur with
  | nil =>
    intro p hp
    simp only [CalendarProcessor.mergeBusyLoop, List.mem_singleton] at hp
    exact hp ▸ hcur
  | cons e rest ih =>
    intro p hp
    rw [CalendarProcessor.mergeBusyLoop] at hp
    by_cases h : e.start ≤ cur.endTime
    · rw [if_pos h] at hp
      exact ih { cur with endTime := max cur.endTime e.endTime,
                          eventIds := cur.eventIds ++ [e.id] }
        hcur (fun f hf => hl f (List.mem_cons_of_mem _ hf)) p hp
    · rw [if_neg h] at hp
      rcases List.mem_cons.mp hp with rfl | hp
      · exact hcur
      · exact ih _ (hl e (List.mem_cons_self _ _))
          (fun f hf => hl f (List.mem_cons_of_mem _ hf)) p hp

theorem mergeBusyLoop_pairwise (cur : BusyPeriod) (l : List CalendarEvent)
    (hsorted : l.Pairwise (fun a b => a.start ≤ b.start))
    (hcur : ∀ e ∈ l, cur.start ≤ e.start) :
    (CalendarProcessor.mergeBusyLoop cur l).Pairwise
      (fun p q => p.start ≤ q.start ∧ p.endTime < q.start) := by
  induction l generalizing cur with
  | nil => simp [CalendarProcessor.mergeBusyLoop]
  | cons e rest ih =>
    rcases List.pairwise_cons.mp hsorted with ⟨he, hrest⟩
    rw [CalendarProcessor.mergeBusyLoop]
    by_cases h : e.start ≤ cur.endTime
    · rw [if_pos h]
      exact ih { cur with endTime := max cur.endTime e.endTime,
                          eventIds := cur.eventIds ++ [e.id] }
        hrest (fun f hf => le_trans (hcur e (List.mem_cons_self _ _)) (he f hf))
    · rw [if_neg h]
      refine List.pairwise_cons.mpr ⟨?_, ih _ hrest (fun f hf => he f hf)⟩
      intro q hq
      have hstart : e.start ≤ q.start :=
        mergeBusyLoop_start_le _ rest e.start le_rfl he q hq
      have hcs : cur.start ≤ e.start := hcur e (List.mem_cons_self _ _)
      have hce : cur.endTime < e.start := lt_of_not_ge h
      exact ⟨le_trans hcs hstart, lt_of_lt_of_le hce hstart⟩

theorem mergeBusyLoop_union (cur : BusyPeriod) (l : List CalendarEvent)
    (hsorted : l.Pairwise (fun a b => a.start ≤ b.start))
    (hcur : ∀ e ∈ l, cur.start ≤ e.start) (t : Int) :
    busyAt (CalendarProcessor.mergeBusyLoop cur l) t ↔
      (cur.start ≤ t ∧ t < cur.endTime) ∨ eventSpanAt l t := by
  induction l generalizing cur with
  | nil =>
    simp [CalendarProcessor.mergeBusyLoop, busyAt, eventSpanAt]
  | cons e rest ih =>
    rcases List.pairwise_cons.mp hsorted with ⟨he, hrest⟩
    rw [CalendarProcessor.mergeBusyLoop]
    by_cases h : e.start ≤ cur.endTime
    · rw [if_pos h]
      rw [ih { cur with endTime := max cur.endTime e.endTime,
                        eventIds := cur.eventIds ++ [e.id] }
        hrest (fun f hf => le_trans (hcur e (List.mem_cons_self _ _)) (he f hf))]
      have hspan : eventSpanAt (e :: rest) t ↔
          (e.start ≤ t ∧ t < e.endTime) ∨ eventSpanAt rest t := by
        simp [eventSpanAt, List.exists_mem_cons_iff]
      rw [hspan]
      constructor
      · rintro (⟨h1, h2⟩ | hr)
        · rcases lt_or_le t e.start with hlt | hge
          · exact Or.inl ⟨h1, lt_of_lt_of_le hlt h⟩
          · rcases lt_max_iff.mp h2 with h2a | h2b
            · exact Or.inl ⟨h1, h2a⟩
            · exact Or.inr (Or.inl ⟨hge, h2b⟩)
        · exact Or.inr (Or.inr hr)
      · rintro (⟨h1, h2⟩ | ⟨h1, h2⟩ | hr)
        · exact Or.inl ⟨h1, lt_of_lt_of_le h2 (le_max_left _ _)⟩
        · exact Or.inl ⟨le_trans (hcur e (List.mem_cons_self _ _)) h1,
            lt_of_lt_of_le h2 (le_max_right _ _)⟩
        · exact Or.inr hr
    · rw [if_neg h]
      have hbusy : busyAt (cur :: CalendarProcessor.mergeBusyLoop
          { participantId := cur.participantId, start := e.start,
            endTime := e.endTime, eventIds := [e.id] } rest) t ↔
          (cur.start ≤ t ∧ t < cur.endTime) ∨ busyAt (CalendarProcessor.mergeBusyLoop
          { participantId := cur.participantId, start := e.start,
            endTime := e.endTime, eventIds := [e.id] } rest) t := by
        simp [busyAt, List.exists_mem_cons_iff]
      rw [hbusy, ih _ hrest (fun f hf => he f hf)]
      have hspan : eventSpanAt (e :: rest) t ↔
          (e.start ≤ t ∧ t < e.endTime) ∨ eventSpanAt rest t := by
        simp [eventSpanAt, List.exists_mem_cons_iff]
      rw [hspan]

theorem startLe_total (a b : CalendarEvent) : startLe a b = true ∨ startLe b a = true := by
  simp only [startLe, decide_eq_true_eq]
  exact le_total a.start b.start

theorem startLe_trans (a b c : CalendarEvent)
    (hab : startLe a b = true) (hbc : startLe b c = true) : startLe a c = true := by
  simp only [startLe, decide_eq_true_eq] at *
  exact le_trans hab hbc

/-- C3: for every participant calendar, the busy periods produced by
`CalendarProcessor.generateBusyPeriods` are sorted by start and pairwise
non-overlapping — consecutive periods satisfy the strict bound
`p.end < q.start`, so an event whose start is `<=` the current period's end
always extends it and touching intervals are merged, never kept separate —
and an instant is covered by some busy period exactly when it is covered by
some non-cancelled event of the calendar (the union of the busy-period spans
equals the union of the non-cancelled event spans). -/
theorem generateBusyPeriods_invariant (calendar : ParticipantCalendar) :
    (CalendarProcessor.generateBusyPeriods calendar).Pairwise
      (fun p q => p.start ≤ q.start ∧ p.endTime < q.start) ∧
    ∀ t : Int,
      busyAt (CalendarProcessor.generateBusyPeriods calendar) t ↔
        eventSpanAt (calendar.events.filter (fun e => decide (e.status ≠ .cancelled))) t := by
  unfold CalendarProcessor.generateBusyPeriods
  set flt := calendar.events.filter (fun e => decide (e.status ≠ .cancelled)) with hflt
  have hsortedB := pairwise_sortBy startLe startLe_total startLe_trans flt
  have hsorted : (sortBy startLe flt).Pairwise (fun a b => a.start ≤ b.start) :=
    hsortedB.imp (fun h => by simpa [startLe] using h)
  have hmemiff : ∀ e, e ∈ sortBy startLe flt ↔ e ∈ flt :=
    fun e => mem_sortBy startLe flt e
  cases hl : sortBy startLe flt with
  | nil =>
    rw [hl] at hmemiff
    refine ⟨List.Pairwise.nil, fun t => ⟨?_, ?_⟩⟩
    · rintro ⟨p, hp, _⟩
      simp at hp
    · rintro ⟨f, hf, _⟩
      have hmem := (hmemiff f).mpr hf
      simp at hmem
  | cons e rest =>
    rw [hl] at hsorted hmemiff
    rcases List.pairwise_cons.mp hsorted with ⟨he, hrest⟩
    refine ⟨mergeBusyLoop_pairwise _ rest hrest he, fun t => ?_⟩
    rw [mergeBusyLoop_union
      { participantId := calendar.participantId, start := e.start,
        endTime := e.endTime, eventIds := [e.id] } rest hrest he t]
    constructor
    · rintro (⟨h1, h2⟩ | hr)
      · exact ⟨e, (hmemiff e).mp (List.mem_cons_self _ _), h1, h2⟩
      · rcases hr with ⟨f, hf, hsp⟩
        exact ⟨f, (hmemiff f).mp (List.mem_cons_of_mem _ hf), hsp⟩
    · rintro ⟨f, hf, hsp⟩
      rcases List.mem_cons.mp ((hmemiff f).mpr hf) with rfl | hf2
      · exact Or.inl ⟨hsp.1, hsp.2⟩
      · exact Or.inr ⟨f, hf2, hsp⟩

theorem conflictPairsFor_eq_nil (pid : Str) (e1 : CalendarEvent)
    (l : List CalendarEvent) (h : ∀ f ∈ l, ¬ f.start < e1.endTime) :
    conflictPairsFor pid e1 l = [] := by
  induction l with
  | nil => rfl
  | cons f fs ih =>
    have hcond : ¬ (e1.start ≤ f.start ∧ f.start < e1.endTime) := by
      rintro ⟨_, hlt⟩
      exact h f (List.mem_cons_self _ _) hlt
    rw [conflictPairsFor, if_neg hcond,
      ih (fun g hg => h g (List.mem_cons_of_mem _ hg)), List.nil_append]

theorem conflictScanInner_eq (pid : Str) (e1 : CalendarEvent)
    (rest : List CalendarEvent)
    (hsorted : rest.Pairwise (fun a b => a.start ≤ b.start))
    (he1 : ∀ e ∈ rest, e1.start ≤ e.start)
    (hpos : ∀ e ∈ rest, e.start < e.endTime) :
    CalendarProcessor.conflictScanInner pid e1 rest = conflictPairsFor pid e1 rest := by
  induction rest with
  | nil => rfl
  | cons e2 rest2 ih =>
    rcases List.pairwise_cons.mp hsorted with ⟨he2, hrest2⟩
    rw [CalendarProcessor.conflictScanInner, conflictPairsFor]
    by_cases h : e2.start < e1.endTime
    · have hstart : e1.start ≤ e2.start := he1 e2 (List.mem_cons_self _ _)
      have hcond : max e1.start e2.start < min e1.endTime e2.endTime := by
        rw [max_eq_right hstart]
        exact lt_min_iff.mpr ⟨h, hpos e2 (List.mem_cons_self _ _)⟩
      rw [if_pos h, if_pos hcond, if_pos ⟨hstart, h⟩,
        ih hrest2 (fun f hf => he1 f (List.mem_cons_of_mem _ hf))
          (fun f hf => hpos f (List.mem_cons_of_mem _ hf))]
    · have hcond : ¬ (e1.start ≤ e2.start ∧ e2.start < e1.endTime) := by
        rintro ⟨_, hlt⟩
        exact h hlt
      rw [if_neg h, if_neg hcond,
        conflictPairsFor_eq_nil pid e1 rest2
          (fun f hf => fun hlt => h (lt_of_le_of_lt (he2 f hf) hlt)),
        List.nil_append]

theorem conflictScan_eq_spec (pid : Str) (l : List CalendarEvent)
    (hsorted : l.Pairwise (fun a b => a.start ≤ b.start))
    (hpos : ∀ e ∈ l, e.start < e.endTime) :
    CalendarProcessor.conflictScan pid l = conflictPairsSpec pid l := by
  induction l with
  | nil => rfl
  | cons e1 rest ih =>
    rcases List.pairwise_cons.mp hsorted with ⟨he, hrest⟩
    rw [CalendarProcessor.conflictScan, conflictPairsSpec,
      conflictScanInner_eq pid e1 rest hrest he
        (fun f hf => hpos f (List.mem_cons_of_mem _ hf)),
      ih hrest (fun f hf => hpos f (List.mem_cons_of_mem _ hf))]

theorem mem_conflictPairsFor (pid : Str) (e1 : CalendarEvent)
    (l : List CalendarEvent) (c : EventConflict) (hc : c ∈ conflictPairsFor pid e1 l) :
    ∃ e2 ∈ l, (e1.start ≤ e2.start ∧ e2.start < e1.endTime) ∧
      c = CalendarProcessor.mkConflict pid e1 e2 := by
  induction l with
  | nil => simp [conflictPairsFor] at hc
  | cons e2 rest ih =>
    rw [conflictPairsFor] at hc
    rcases List.mem_append.mp hc with h1 | h2
    · by_cases hcond : e1.start ≤ e2.start ∧ e2.start < e1.endTime
      · rw [if_pos hcond] at h1
        have := List.mem_singleton.mp h1
        exact ⟨e2, List.mem_cons_self _ _, hcond, this⟩
      · rw [if_neg hcond] at h1
        simp at h1
    · rcases ih h2 with ⟨f, hf, hcond, heq⟩
      exact ⟨f, List.mem_cons_of_mem _ hf, hcond, heq⟩

theorem conflictPairsSpec_mem_props (pid : Str) (l : List CalendarEvent)
    (hpos : ∀ e ∈ l, e.start < e.endTime) :
    ∀ c ∈ conflictPairsSpec pid l,
      c.event1.start ≤ c.event2.start ∧
      c.event2.start < c.event1.endTime ∧
      c.event1.start < c.event2.endTime ∧
      c.event2.start ≠ c.event1.endTime ∧
      c.overlapStart = max c.event1.start c.event2.start ∧
      c.overlapEnd = min c.event1.endTime c.event2.endTime ∧
      c.overlapDuration = ((c.overlapEnd - c.overlapStart : Int) : ℚ) / (1000 * 60) := by
  induction l with
  | nil => intro c hc; simp [conflictPairsSpec] at hc
  | cons e1 rest ih =>
    intro c hc
    rw [conflictPairsSpec] at hc
    rcases List.mem_append.mp hc with h1 | h2
    · rcases mem_conflictPairsFor pid e1 rest c h1 with ⟨e2, he2, ⟨hs, hlt⟩, heq⟩
      subst heq
      exact ⟨hs, hlt,
        lt_of_le_of_lt hs (hpos e2 (List.mem_cons_of_mem _ he2)),
        ne_of_lt hlt, rfl, rfl, rfl⟩
    · exact ih (fun f hf => hpos f (List.mem_cons_of_mem _ hf)) c h2

/-- C4: for a start-sorted event list whose events satisfy the data-model
invariant `start < end`, `detectParticipantConflicts` reports exactly the
pairs `(e1, e2)` with `e1` before `e2` in the list (hence
`e1.start <= e2.start`) and `e2.start < e1.end` (this is
`conflictPairsSpec`); moreover every reported conflict satisfies the
symmetric overlap condition `e1.start < e2.end && e2.start < e1.end`, is
never a merely-touching pair (`e2.start = e1.end` is excluded), and carries
the overlap window `[max(starts), min(ends))` with its duration in minutes. -/
theorem detectParticipantConflicts_exact (calendar : ParticipantCalendar)
    (hsorted : calendar.events.Pairwise (fun a b => a.start ≤ b.start))
    (hpos : ∀ e ∈ calendar.events, e.start < e.endTime) :
    CalendarProcessor.detectParticipantConflicts calendar =
        conflictPairsSpec calendar.participantId calendar.events ∧
      ∀ c ∈ CalendarProcessor.detectParticipantConflicts calendar,
        c.event1.start ≤ c.event2.start ∧
        c.event2.start < c.event1.endTime ∧
        c.event1.start < c.event2.endTime ∧
        c.event2.start ≠ c.event1.endTime ∧
        c.overlapStart = max c.event1.start c.event2.start ∧
        c.overlapEnd = min c.event1.endTime c.event2.endTime ∧
        c.overlapDuration = ((c.overlapEnd - c.overlapStart : Int) : ℚ) / (1000 * 60) := by
  have hsortid : sortBy startLe calendar.events = calendar.events :=
    sortBy_eq_of_pairwise startLe calendar.events
      (hsorted.imp (fun h => by simpa [startLe] using h))
  have heq : CalendarProcessor.detectParticipantConflicts calendar =
      conflictPairsSpec calendar.participantId calendar.events := by
    rw [CalendarProcessor.detectParticipantConflicts, hsortid,
      conflictScan_eq_spec calendar.participantId calendar.events hsorted hpos]
  refine ⟨heq, ?_⟩
  rw [heq]
  exact conflictPairsSpec_mem_props calendar.participantId calendar.events hpos

/-- Witness for C4 at the concrete two-event scenario. -/
theorem detectParticipantConflicts_exact_witness :
    CalendarProcessor.detectParticipantConflicts c4Calendar =
        conflictPairsSpec c4Calendar.participantId c4Calendar.events ∧
      ∀ c ∈ CalendarProcessor.detectParticipantConflicts c4Calendar,
        c.event1.start ≤ c.event2.start ∧
        c.event2.start < c.event1.endTime ∧
        c.event1.start < c.event2.endTime ∧
        c.event2.start ≠ c.event1.endTime ∧
        c.overlapStart = max c.event1.start c.event2.start ∧
        c.overlapEnd = min c.event1.endTime c.event2.endTime ∧
        c.overlapDuration = ((c.overlapEnd - c.overlapStart : Int) : ℚ) / (1000 * 60) :=
  detectParticipantConflicts_exact c4Calendar (by decide) (by decide)

theorem RRule.betweenAux_length_le (m : Nat) (l : List Int) (i : Nat) :
    (RRule.betweenAux (fun _ j => decide (j < m)) l i).length ≤ m - i := by
  induction l generalizing i with
  | nil => simp [RRule.betweenAux]
  | cons d rest ih =>
    rw [RRule.betweenAux]
    by_cases h : i < m
    · rw [if_pos (decide_eq_true h)]
      have := ih (i + 1)
      simp only [List.length_cons]
      omega
    · rw [if_neg (by simpa using h)]
      simp

/-- C7: for every recurring event whose rule has no `until`/`count` bound and
every expansion window, `expandSingleEvent` returns at most `maxOccurrences`
occurrence events: the `(date, i) => i < maxOccurrences` iterator passed to
the library's `between` stops the enumeration at that index regardless of the
window's size. -/
theorem expandSingleEvent_bounded (event : CalendarEvent) (r : RRule)
    (dateRange : DateRange) (maxOccurrences : Nat)
    (hrec : event.recurrence = some r)
    (hnountil : r.untilDate = none) (hnocount : r.count = none) :
    (RecurrenceExpander.expandSingleEvent event dateRange maxOccurrences).length ≤
      maxOccurrences := by
  rw [RecurrenceExpander.expandSingleEvent, hrec]
  refine le_trans (List.length_filter_le _ _) ?_
  rw [List.length_map]
  have h := RRule.betweenAux_length_le maxOccurrences
    (r.occDates dateRange.start (dateRange.endTime + 86400000)) 0
  simpa [RRule.between] using h

/-- Witness for C7: cap 2 on an unbounded weekly rule over a one-week window. -/
theorem expandSingleEvent_bounded_witness :
    (RecurrenceExpander.expandSingleEvent c7Event
      { start := 0, endTime := 604800000 } 2).length ≤ 2 :=
  expandSingleEvent_bounded c7Event c7Rule { start := 0, endTime := 604800000 } 2
    rfl rfl rfl

/- ### C2: invalid requests are rejected with a coded SchedulingError -/

/-- C2: `scheduleOptimalMeeting` fails with a `SchedulingError` carrying one
of the stable machine-readable codes — and returns no `SchedulingResult` —
whenever the participant list is empty, or the duration is non-positive, or
the search range start is not strictly before its end, or a business-hours
bound does not match the `HH:MM` pattern. -/
theorem scheduleOptimalMeeting_rejects_invalid (participants : List ParticipantCalendar)
    (preferences : MeetingPreferences) (searchRange : DateRange)
    (hbad : participants = [] ∨ preferences.duration ≤ 0 ∨
      searchRange.endTime ≤ searchRange.start ∨
      matchesTimeFormat preferences.timeRangeStart = false ∨
      matchesTimeFormat preferences.timeRangeEnd = false) :
    ∃ e : SchedulingError,
      MeetingScheduler.scheduleOptimalMeeting participants preferences searchRange =
        .error e ∧
      (e.code = "NO_PARTICIPANTS".toList ∨ e.code = "INVALID_DURATION".toList ∨
       e.code = "INVALID_RANGE".toList ∨ e.code = "INVALID_TIME_FORMAT".toList) := by
  unfold MeetingScheduler.scheduleOptimalMeeting MeetingScheduler.validateInputs
  by_cases h1 : participants.isEmpty = true
  · rw [if_pos h1]
    exact ⟨_, rfl, Or.inl rfl⟩
  · rw [if_neg h1]
    by_cases h2 : preferences.duration ≤ 0
    · rw [if_pos h2]
      exact ⟨_, rfl, Or.inr (Or.inl rfl)⟩
    · rw [if_neg h2]
      by_cases h3 : searchRange.endTime ≤ searchRange.start
      · rw [if_pos h3]
        exact ⟨_, rfl, Or.inr (Or.inr (Or.inl rfl))⟩
      · rw [if_neg h3]
        by_cases h4 : (!(matchesTimeFormat preferences.timeRangeStart &&
            matchesTimeFormat preferences.timeRangeEnd)) = true
        · rw [if_pos h4]
          exact ⟨_, rfl, Or.inr (Or.inr (Or.inr rfl))⟩
        · exfalso
          simp only [Bool.not_eq_true', Bool.and_eq_false_iff] at h4
          rcases hbad with hb | hb | hb | hb | hb
          · subst hb
            exact h1 rfl
          · exact h2 hb
          · exact h3 hb
          · exact h4 (Or.inl hb)
          · exact h4 (Or.inr hb)

/-- Witness for C2: the empty participant list is rejected. -/
theorem scheduleOptimalMeeting_rejects_invalid_witness :
    ∃ e : SchedulingError,
      MeetingScheduler.scheduleOptimalMeeting [] basicPrefs
          { start := 0, endTime := 86399999 } = .error e ∧
      (e.code = "NO_PARTICIPANTS".toList ∨ e.code = "INVALID_DURATION".toList ∨
       e.code = "INVALID_RANGE".toList ∨ e.code = "INVALID_TIME_FORMAT".toList) :=
  scheduleOptimalMeeting_rejects_invalid [] basicPrefs
    { start := 0, endTime := 86399999 } (Or.inl rfl)

/- ### C8: scoring monotonicity in the conflict count -/

/-- C8: for two candidate slots identical except for their conflicts lists,
scored for the same preferences and the same non-empty participant set, the
slot with strictly fewer participant conflicts never receives a lower score
from the scoring step. -/
theorem scoreSlot_monotone (preferences : MeetingPreferences)
    (participants : List ParticipantCalendar) (s1 s2 : TimeSlot)
    (hne : participants ≠ [])
    (hstart : s1.start = s2.start) (hend : s1.endTime = s2.endTime)
    (hfewer : s1.conflicts.length < s2.conflicts.length) :
    (MeetingScheduler.scoreSlot preferences participants s2).score ≤
      (MeetingScheduler.scoreSlot preferences participants s1).score := by
  have hn : (0 : ℚ) < (participants.length : ℚ) := by
    exact_mod_cast List.length_pos.mpr hne
  have hc : (s1.conflicts.length : ℚ) ≤ (s2.conflicts.length : ℚ) := by
    exact_mod_cast le_of_lt hfewer
  have hpen : ((s1.conflicts.length : ℚ) / (participants.length : ℚ)) * 50 ≤
      ((s2.conflicts.length : ℚ) / (participants.length : ℚ)) * 50 := by
    gcongr
  have htb : MeetingScheduler.calculateTimePreferenceBonus s1 preferences =
      MeetingScheduler.calculateTimePreferenceBonus s2 preferences := by
    unfold MeetingScheduler.calculateTimePreferenceBonus
    rw [hstart]
  have htz : MeetingScheduler.calculateTimezoneBonus s1 preferences participants =
      MeetingScheduler.calculateTimezoneBonus s2 preferences participants := rfl
  simp only [MeetingScheduler.scoreSlot]
  rw [← htb, ← htz]
  exact max_le_max le_rfl (min_le_min le_rfl (by linarith))

/-- Witness for C8 at a concrete pair of slots. -/
theorem scoreSlot_monotone_witness :
    (MeetingScheduler.scoreSlot basicPrefs c8Participants c8Slot2).score ≤
      (MeetingScheduler.scoreSlot basicPrefs c8Participants c8Slot1).score :=
  scoreSlot_monotone basicPrefs c8Participants c8Slot1 c8Slot2
    (List.cons_ne_nil _ _) rfl rfl (by decide)

/-- C9: every slot in the `fewerParticipants` list of
`findAlternativeSuggestions` has at least one conflict and strictly fewer
conflicts than the worst (maximum) conflict count among the result's
available slots (the source compares against `availableSlots[0]`, whose
count is bounded by the maximum). -/
theorem findAlternativeSuggestions_fewerParticipants (result : SchedulingResult)
    (preferences : MeetingPreferences) :
    ∀ s ∈ (MeetingScheduler.findAlternativeSuggestions result preferences).fewerParticipants,
      1 ≤ s.conflicts.length ∧
      s.conflicts.length < maxConflictCount result.availableSlots := by
  intro s hs
  have hs2 := (mem_sortBy conflictCountLe _ s).mp (List.mem_of_mem_take hs)
  rcases List.mem_filter.mp hs2 with ⟨hmem, hcond⟩
  simp only [Bool.and_eq_true, decide_eq_true_eq] at hcond
  refine ⟨hcond.1, lt_of_lt_of_le hcond.2 ?_⟩
  cases hl : result.availableSlots with
  | nil =>
    rw [hl] at hmem
    simp at hmem
  | cons first rest =>
    simp only [List.headD_cons, maxConflictCount, List.foldr_cons]
    exact le_max_left _ _

/-- Witness for C9: the one-conflict slot is suggested and satisfies both
bounds. -/
theorem findAlternativeSuggestions_fewerParticipants_witness :
    1 ≤ (({ start := 900000, endTime := 4500000, score := 0,
            conflicts := ["alice".toList], timezoneDisplay := [] } : TimeSlot)).conflicts.length ∧
    (({ start := 900000, endTime := 4500000, score := 0,
        conflicts := ["alice".toList], timezoneDisplay := [] } : TimeSlot)).conflicts.length <
      maxConflictCount c9Result.availableSlots :=
  findAlternativeSuggestions_fewerParticipants c9Result basicPrefs _ (by decide)

/- ### C10: recommendations are the top of the score-sorted availableSlots -/

theorem scoreDescLe_total (a b : TimeSlot) :
    scoreDescLe a b = true ∨ scoreDescLe b a = true := by
  simp only [scoreDescLe, decide_eq_true_eq]
  exact (le_total b.score a.score)

theorem scoreDescLe_trans (a b c : TimeSlot)
    (hab : scoreDescLe a b = true) (hbc : scoreDescLe b c = true) :
    scoreDescLe a c = true := by
  simp only [scoreDescLe, decide_eq_true_eq] at *
  exact le_trans hbc hab

/-- C10: in every `SchedulingResult` produced by `scheduleOptimalMeeting`,
`recommendations` is exactly the first `min(5, availableSlots.length)`
elements of `availableSlots`, and `availableSlots` is the stable
score-descending sort of the scored candidate slots — the recommendation
step sorted the same underlying array in place, so `availableSlots` is
ordered by non-increasing score, not left in candidate-generation order. -/
theorem scheduleOptimalMeeting_recommendations (participants : List ParticipantCalendar)
    (preferences : MeetingPreferences) (searchRange : DateRange)
    (result : SchedulingResult)
    (h : MeetingScheduler.scheduleOptimalMeeting participants preferences searchRange =
      .ok result) :
    result.recommendations = result.availableSlots.take 5 ∧
    result.availableSlots = sortBy scoreDescLe
      (MeetingScheduler.scoreTimeSlots
        (MeetingScheduler.findCandidateTimeSlots searchRange preferences
          (MeetingScheduler.getAllBusyPeriods participants searchRange))
        preferences participants) ∧
    result.availableSlots.Pairwise (fun a b => b.score ≤ a.score) := by
  unfold MeetingScheduler.scheduleOptimalMeeting at h
  cases hv : MeetingScheduler.validateInputs participants preferences searchRange with
  | error e =>
    rw [hv] at h
    exact absurd h (by simp)
  | ok u =>
    rw [hv] at h
    have h' := Except.ok.inj h
    subst h'
    refine ⟨rfl, rfl, ?_⟩
    exact (pairwise_sortBy scoreDescLe scoreDescLe_total scoreDescLe_trans _).imp
      (fun hab => by simpa [scoreDescLe] using hab)

theorem pairwise_of_forall_mem (R : α → α → Prop) (l : List α)
    (h : ∀ a ∈ l, ∀ b ∈ l, R a b) : l.Pairwise R := by
  induction l with
  | nil => exact .nil
  | cons x xs ih =>
    refine List.pairwise_cons.mpr
      ⟨fun b hb => h x (List.mem_cons_self _ _) b (List.mem_cons_of_mem _ hb), ?_⟩
    exact ih (fun a ha b hb =>
      h a (List.mem_cons_of_mem _ ha) b (List.mem_cons_of_mem _ hb))

/-- A conflict-free slot scored with no preferred timezones always clamps to
exactly 100: the midpoint bonus is non-negative, so the raw score is at
least 100 and `Math.min(100, ...)` absorbs it. -/
theorem scoreSlot_noConflicts_score (preferences : MeetingPreferences)
    (participants : List ParticipantCalendar) (slot : TimeSlot)
    (hc : slot.conflicts = [])
    (htz : preferences.preferredTimezones = []) :
    (MeetingScheduler.scoreSlot preferences participants slot).score = 100 := by
  have htb0 : 0 ≤ MeetingScheduler.calculateTimePreferenceBonus slot preferences := by
    unfold MeetingScheduler.calculateTimePreferenceBonus
    exact le_max_left 0 _
  have htzb : MeetingScheduler.calculateTimezoneBonus slot preferences participants = 0 := by
    unfold MeetingScheduler.calculateTimezoneBonus
    rw [htz]
    simp
  unfold MeetingScheduler.scoreSlot
  rw [hc, htzb]
  have hpen : ((List.length ([] : List Str) : ℚ) / (participants.length : ℚ)) * 50 = 0 := by
    simp
  rw [hpen]
  show (0 : ℚ) ⊔ 100 ⊓ (100 - 0 +
    MeetingScheduler.calculateTimePreferenceBonus slot preferences + 0) = 100
  have hmin : (100 : ℚ) ⊓ (100 - 0 +
      MeetingScheduler.calculateTimePreferenceBonus slot preferences + 0) = 100 :=
    min_eq_left (by linarith)
  rw [hmin]
  exact max_eq_right (by norm_num)

theorem scenario_validate :
    MeetingScheduler.validateInputs scenarioParticipants basicPrefs scenarioRange =
      .ok () := by
  decide

theorem scenarioScored_starts :
    scenarioScored.map (fun s => s.start) = expectedStarts := by
  decide

theorem scenarioScored_conflicts : ∀ s ∈ scenarioScored, s.conflicts = [] := by
  decide

theorem scenarioScored_scores : ∀ s ∈ scenarioScored, s.score = 100 := by
  intro s hs
  have hs2 : s ∈ scenarioCandidates.map
      (MeetingScheduler.scoreSlot basicPrefs scenarioParticipants) := hs
  rcases List.mem_map.mp hs2 with ⟨c, hc, rfl⟩
  refine scoreSlot_noConflicts_score basicPrefs scenarioParticipants c ?_ rfl
  exact scenarioScored_conflicts
    (MeetingScheduler.scoreSlot basicPrefs scenarioParticipants c) hs

theorem scenarioScored_sort_id : sortBy scoreDescLe scenarioScored = scenarioScored :=
  sortBy_eq_of_pairwise _ _ (pairwise_of_forall_mem _ _ (fun a ha b hb => by
    simp [scoreDescLe, scenarioScored_scores a ha, scenarioScored_scores b hb]))

theorem scenarioRun_eq : scenarioRun = .ok
    { availableSlots := scenarioScored,
      conflictAnalysis := MeetingScheduler.analyzeConflicts scenarioScored scenarioParticipants,
      recommendations := scenarioScored.take 5 } := by
  have hmain : scenarioRun = .ok
      { availableSlots := sortBy scoreDescLe scenarioScored,
        conflictAnalysis := MeetingScheduler.analyzeConflicts scenarioScored scenarioParticipants,
        recommendations := (sortBy scoreDescLe scenarioScored).take 5 } := by
    unfold scenarioRun MeetingScheduler.scheduleOptimalMeeting
    rw [scenario_validate]
    rfl
  rw [hmain, scenarioScored_sort_id]

theorem scoreAtStart_eq_of (slots : List TimeSlot) (t : Int)
    (hall : ∀ s ∈ slots, s.score = 100)
    (hmem : t ∈ slots.map (fun s => s.start)) : scoreAtStart slots t = 100 := by
  rcases List.mem_map.mp hmem with ⟨s, hs, rfl⟩
  unfold scoreAtStart
  cases hf : slots.filter (fun x => x.start == s.start) with
  | nil =>
    have hmemf : s ∈ slots.filter (fun x => x.start == s.start) :=
      List.mem_filter.mpr ⟨hs, by simp⟩
    rw [hf] at hmemf
    simp at hmemf
  | cons a as =>
    have ha : a ∈ slots.filter (fun x => x.start == s.start) := by
      rw [hf]
      exact List.mem_cons_self _ _
    simp only [List.map_cons, List.headD_cons]
    exact hall a (List.mem_filter.mp ha).1

/-- C1 counterexample: in the spec scenario (2 participants with empty event
lists, business hours 09:00–17:00, duration 60, buffer 0, no excluded dates,
a one-weekday window), the slot starting at 13:00 does NOT score strictly
higher than the slot starting at 09:00 — the clamp `Math.min(100, score)`
absorbs the midpoint bonus, so both slots score exactly 100. -/
theorem scheduleScenario_no_strict_peak :
    ∃ r, scenarioRun = .ok r ∧
      ¬ (scoreAtStart r.availableSlots 32400000 <
          scoreAtStart r.availableSlots 46800000) := by
  refine ⟨_, scenarioRun_eq, ?_⟩
  show ¬ (scoreAtStart scenarioScored 32400000 < scoreAtStart scenarioScored 46800000)
  have h13 : scoreAtStart scenarioScored 46800000 = 100 :=
    scoreAtStart_eq_of scenarioScored 46800000 scenarioScored_scores
      (by rw [scenarioScored_starts]; decide)
  have h9 : scoreAtStart scenarioScored 32400000 = 100 :=
    scoreAtStart_eq_of scenarioScored 32400000 scenarioScored_scores
      (by rw [scenarioScored_starts]; decide)
  rw [h13, h9]
  exact lt_irrefl 100

/-- C1 amended: in the spec scenario, `scheduleOptimalMeeting` succeeds and
its `availableSlots` are exactly the candidate slots starting every 15
minutes from 09:00 through 16:00 inclusive (in generation order: with every
score clamped to 100 the stable score sort is the identity), every slot has
an empty conflicts list and scores exactly 100, and the slot starting at
13:00 (the business-hours midpoint) therefore scores no lower than — but
not strictly higher than — the slot starting at 09:00. -/
theorem scheduleScenario_slots_amended :
    ∃ r, scenarioRun = .ok r ∧
      r.availableSlots.map (fun s => s.start) = expectedStarts ∧
      (∀ s ∈ r.availableSlots, s.conflicts = [] ∧ s.score = 100) ∧
      scoreAtStart r.availableSlots 32400000 ≤
        scoreAtStart r.availableSlots 46800000 := by
  refine ⟨_, scenarioRun_eq, scenarioScored_starts, ?_, ?_⟩
  · intro s hs
    exact ⟨scenarioScored_conflicts s hs, scenarioScored_scores s hs⟩
  · show scoreAtStart scenarioScored 32400000 ≤ scoreAtStart scenarioScored 46800000
    have h13 : scoreAtStart scenarioScored 46800000 = 100 :=
      scoreAtStart_eq_of scenarioScored 46800000 scenarioScored_scores
        (by rw [scenarioScored_starts]; decide)
    have h9 : scoreAtStart scenarioScored 32400000 = 100 :=
      scoreAtStart_eq_of scenarioScored 32400000 scenarioScored_scores
        (by rw [scenarioScored_starts]; decide)
    rw [h13, h9]

/-- Witness for C10 at a concrete successful run. -/
theorem scheduleOptimalMeeting_recommendations_witness :
    c10Result.recommendations = c10Result.availableSlots.take 5 ∧
    c10Result.availableSlots = sortBy scoreDescLe
      (MeetingScheduler.scoreTimeSlots
        (MeetingScheduler.findCandidateTimeSlots { start := 0, endTime := 86399999 }
          c10Prefs
          (MeetingScheduler.getAllBusyPeriods c10Participants
            { start := 0, endTime := 86399999 }))
        c10Prefs c10Participants) ∧
    c10Result.availableSlots.Pairwise (fun a b => b.score ≤ a.score) :=
  scheduleOptimalMeeting_recommendations c10Participants c10Prefs
    { start := 0, endTime := 86399999 } c10Result (by decide)

/-- C5 counterexample: for `RRULE:FREQ=FOO` no recognized frequency token is
present, yet `processEvent` attaches a recurrence-rule object (the
unrecognized value falls back to the weekly frequency), refuting "only when
the RRULE string contains a frequency token that is recognized". -/
theorem processEvent_unrecognized_freq_attaches :
    hasRecognizedFreqToken "FREQ=FOO".toList = false ∧
    ((ICalParser.processEvent noISO c5Vevent).toOption.map
      (fun ev => ev.map (fun e => e.recurrence.isSome))) = some (some true) := by
  constructor
  · decide
  · decide

theorem eventRecurrence_isSome (pISO : Str → Option Int) (rp : Option PropVal)
    (sd : Int) (h : (ICalParser.eventRecurrence pISO rp sd).isSome = true) :
    ∃ rs, rp = some (.single rs) ∧ isSubstr freqToken rs = true := by
  match rp with
  | none => simp [ICalParser.eventRecurrence] at h
  | some (.multi vs) => simp [ICalParser.eventRecurrence] at h
  | some (.single rs) =>
    refine ⟨rs, rfl, ?_⟩
    cases hf : isSubstr freqToken rs with
    | true => rfl
    | false => simp [ICalParser.eventRecurrence, hf] at h

theorem eventRecurrence_dropped (pISO : Str → Option Int) (rs : Str) (sd : Int)
    (hfail : (ICalParser.parseRecurrenceRule pISO rs sd).isOk = false) :
    ICalParser.eventRecurrence pISO (some (.single rs)) sd = none := by
  cases hp : ICalParser.parseRecurrenceRule pISO rs sd with
  | ok r =>
    rw [hp] at hfail
    simp [Except.isOk, Except.toBool] at hfail
  | error e =>
    cases hf : isSubstr freqToken rs with
    | true => simp [ICalParser.eventRecurrence, hf, hp]
    | false => simp [ICalParser.eventRecurrence, hf]

/-- C5 amended: whenever `processEvent` returns an event, its recurrence is
exactly the `eventRecurrence` attachment step: a rule object is attached
only when the `RRULE` value is a string containing the substring `FREQ=`
(the frequency value need not be recognized — `mapFrequency` falls back to
the weekly frequency for unrecognized values); and whenever the rule-string
parse fails, the rule is dropped (`recurrence = none`) while the event
itself is still returned — rule-parse failure never fails the parse call. -/
theorem processEvent_recurrence_amended (pISO : Str → Option Int)
    (vevent : ICalComponent) (ev : CalendarEvent)
    (h : ICalParser.processEvent pISO vevent = .ok (some ev)) :
    ev.recurrence = ICalParser.eventRecurrence pISO
      (ICalParser.getProp vevent.properties "RRULE".toList) ev.start ∧
    (ev.recurrence.isSome = true →
      ∃ rs, ICalParser.getProp vevent.properties "RRULE".toList =
          some (.single rs) ∧ isSubstr freqToken rs = true) ∧
    (∀ rs, ICalParser.getProp vevent.properties "RRULE".toList = some (.single rs) →
      (ICalParser.parseRecurrenceRule pISO rs ev.start).isOk = false →
      ev.recurrence = none) := by
  have hrec : ev.recurrence = ICalParser.eventRecurrence pISO
      (ICalParser.getProp vevent.properties "RRULE".toList) ev.start := by
    unfold ICalParser.processEvent at h
    simp only [] at h
    split at h
    · exact absurd h (by simp)
    · split at h
      · exact absurd h (by simp)
      · exact absurd h (by simp)
      · split at h
        · exact absurd h (by simp)
        · split at h
          · exact absurd h (by simp)
          · split at h
            · exact absurd h (by simp)
            · split at h
              · exact absurd h (by simp)
              · have h2 := Option.some.inj (Except.ok.inj h)
                subst h2
                rfl
  refine ⟨hrec, ?_, ?_⟩
  · intro hsome
    rw [hrec] at hsome
    exact eventRecurrence_isSome pISO _ ev.start hsome
  · intro rs hrs hfail
    rw [hrec, hrs]
    exact eventRecurrence_dropped pISO rs ev.start hfail

/-- Witness for the amended C5 at a concrete parsed event. -/
theorem processEvent_recurrence_amended_witness :
    c5WitnessEvent.recurrence = ICalParser.eventRecurrence noISO
      (ICalParser.getProp c5WitnessVevent.properties "RRULE".toList)
      c5WitnessEvent.start ∧
    (c5WitnessEvent.recurrence.isSome = true →
      ∃ rs, ICalParser.getProp c5WitnessVevent.properties "RRULE".toList =
          some (.single rs) ∧ isSubstr freqToken rs = true) ∧
    (∀ rs, ICalParser.getProp c5WitnessVevent.properties "RRULE".toList =
        some (.single rs) →
      (ICalParser.parseRecurrenceRule noISO rs c5WitnessEvent.start).isOk = false →
      c5WitnessEvent.recurrence = none) :=
  processEvent_recurrence_amended noISO c5WitnessVevent c5WitnessEvent rfl

/- ### C6: parse failure vs. per-event recovery -/

theorem extractEventsLoop_eq_filterMap (pISO : Str → Option Int)
    (l : List ICalComponent) :
    ICalParser.extractEventsLoop pISO l = l.filterMap (ICalParser.keptEvent pISO) := by
  induction l with
  | nil => rfl
  | cons v rest ih =>
    rw [ICalParser.extractEventsLoop]
    cases hp : ICalParser.processEvent pISO v with
    | ok r =>
      cases r with
      | some e => simp only [List.filterMap_cons, ICalParser.keptEvent, hp, ih]
      | none => simp only [List.filterMap_cons, ICalParser.keptEvent, hp, ih]
    | error e => simp only [List.filterMap_cons, ICalParser.keptEvent, hp, ih]

/-- C6 counterexample: an input whose container markers are present on which
`parseICalContent` nevertheless fails — the repeated `DTSTART` is stored as
an array, the event itself is skipped by the per-event recovery, but the
calendar-level timezone scan (outside any per-event `try`/`catch`) calls the
string method `endsWith` on the array value, and the resulting `TypeError`
is re-wrapped into a `ParseError`.  This refutes the claimed "fails ... if
and only if the container markers are absent". -/
theorem parseICalContent_fails_with_markers :
    isSubstr "BEGIN:VCALENDAR".toList c6BadContent = true ∧
    (ICalParser.parseICalContent noISO c6BadContent none).isOk = false := by
  constructor
  · decide
  · decide

/-- C6 amended: `parseICalContent` fails exactly when the `BEGIN:VCALENDAR`
container marker is absent or the calendar-level timezone scan throws on an
array-valued (repeated) `DTSTART`; in every successful parse the returned
events are exactly the `VEVENT` components surviving `processEvent`, in
order — each per-event defect (bad dates, missing id) only skips its own
event, and the remaining events are returned. -/
theorem parseICalContent_markers (pISO : Str → Option Int) (content : Str)
    (participantName : Option Str) :
    ((ICalParser.parseICalContent pISO content participantName).isOk =
      (isSubstr "BEGIN:VCALENDAR".toList content &&
        (ICalParser.extractTimezone (ICalParser.parseComponents
          (ICalParser.preprocessICalContent content))).isOk)) ∧
    ((ICalParser.parseICalContent pISO content participantName).toOption.map
        (fun cal => cal.events) =
      if isSubstr "BEGIN:VCALENDAR".toList content &&
          (ICalParser.extractTimezone (ICalParser.parseComponents
            (ICalParser.preprocessICalContent content))).isOk then
        some (((ICalParser.parseComponents (ICalParser.preprocessICalContent content)).filter
          (fun c => c.type == "VEVENT".toList)).filterMap (ICalParser.keptEvent pISO))
      else none) := by
  unfold ICalParser.parseICalContent
  cases hm : isSubstr "BEGIN:VCALENDAR".toList content with
  | false =>
    rw [if_pos (by simp [hm])]
    constructor
    · simp [Except.isOk, Except.toBool]
    · simp [Except.toOption]
  | true =>
    rw [if_neg (by simp [hm])]
    cases htz : ICalParser.extractTimezone (ICalParser.parseComponents
        (ICalParser.preprocessICalContent content)) with
    | error e =>
      constructor
      · simp [htz, Except.isOk, Except.toBool]
      · simp [htz, Except.toOption, Except.isOk, Except.toBool]
    | ok tz =>
      constructor
      · simp [htz, Except.isOk, Except.toBool]
      · simp [htz, Except.toOption, Except.isOk, Except.toBool,
          ICalParser.extractEvents, extractEventsLoop_eq_filterMap]
